import Mathlib

/-!
Verification model of the orchestrate workflow core: the rule-driven
automation engine (`tools/automation_engine.py`) and the agent supervisor
(`tools/claude_assistant.py`).  Python JSON values are embedded as the
inductive `J`; Python dicts are association lists preserving insertion order;
ISO-8601 timestamps are represented by integers (isoformat strings are
order-isomorphic to times); the untrusted `eval`-predicates of the engine are
abstracted as boolean-valued functions (evaluation errors are folded into
`false`, which is the engine's own treatment); the external tool invoker and
worker spawner are abstracted as function parameters, following the
interfaces the spec declares for them.
-/

set_option maxRecDepth 10000

namespace OrchSpec

/-- Shallow embedding of a Python/JSON value. -/
inductive J where
  | str (s : String)
  | num (n : Int)
  | bool (b : Bool)
  | null
  | arr (xs : List J)
  | obj (kvs : List (String × J))
deriving Repr

/-- A Python dict with string keys, in insertion order. -/
abbrev Obj := List (String × J)

/-- First value bound to `k` (Python `d[k]` / `d.get(k)`). -/
def olookup : Obj → String → Option J
  | [], _ => none
  | (k', v) :: rest, k => if k' = k then some v else olookup rest k

/-- Python `d[k] = v`: replace in place if the key exists, else append. -/
def oset : Obj → String → J → Obj
  | [], k, v => [(k, v)]
  | (k', v') :: rest, k, v =>
    if k' = k then (k', v) :: rest else (k', v') :: oset rest k v

/-- Python `del d[k]`. -/
def oerase : Obj → String → Obj
  | [], _ => []
  | (k', v') :: rest, k =>
    if k' = k then oerase rest k else (k', v') :: oerase rest k

/-- Python `k in d`. -/
def ohas (d : Obj) (k : String) : Bool := (olookup d k).isSome

/-- The characters `{`, `}` and `'` (kept out of literals). -/
def lbrace : Char := Char.ofNat 123

def rbrace : Char := Char.ofNat 125

def squote : Char := Char.ofNat 39

mutual

/-- Python `str()`/`repr()` of an embedded value (`q` = quote strings, as
`repr` inside containers does). -/
def pyReprV : Bool → J → String
  | q, .str s =>
    if q then String.singleton squote ++ s ++ String.singleton squote else s
  | _, .num n => toString n
  | _, .bool b => if b then "True" else "False"
  | _, .null => "None"
  | _, .arr xs => "[" ++ pyReprL xs ++ "]"
  | _, .obj kvs => String.singleton lbrace ++ pyReprO kvs ++ String.singleton rbrace

def pyReprL : List J → String
  | [] => ""
  | [x] => pyReprV true x
  | x :: rest => pyReprV true x ++ ", " ++ pyReprL rest

def pyReprO : List (String × J) → String
  | [] => ""
  | [(k, v)] => String.singleton squote ++ k ++ String.singleton squote ++ ": " ++ pyReprV true v
  | (k, v) :: rest =>
    String.singleton squote ++ k ++ String.singleton squote ++ ": " ++ pyReprV true v ++
      ", " ++ pyReprO rest

end

/-- Python `str(value)` as the context resolver applies it. -/
def pyStr (v : J) : String := pyReprV false v

/-! ## Context Resolver (`resolve_context_values`, automation_engine.py 229-297) -/

/-- `re.findall(r'\x7b([^\x7d]+)\x7d', s)`: the scanner state is `none`
outside a candidate match and `some acc` after an opening brace, `acc`
holding the (reversed) body read so far.  A closing brace emits the body when
it is non-empty; the body may itself contain opening braces, exactly as the
character class `[^\x7d]+` allows. -/
def phScan : List Char → Option (List Char) → List String
  | [], _ => []
  | c :: rest, none => if c = lbrace then phScan rest (some []) else phScan rest none
  | c :: rest, some acc =>
    if c = rbrace then
      if acc.isEmpty then phScan rest none
      else String.mk acc.reverse :: phScan rest none
    else phScan rest (some (c :: acc))

def pyFindall (s : String) : List String := phScan s.data none

/-- Python `s.split('.')`. -/
def splitDotCh : List Char → List (List Char)
  | [] => [[]]
  | c :: rest =>
    if c = '.' then [] :: splitDotCh rest
    else
      match splitDotCh rest with
      | p :: ps => (c :: p) :: ps
      | [] => [[c]]

def splitDot (s : String) : List String := (splitDotCh s.data).map String.mk

/-- Python `s.replace(old, new)` (all occurrences, left to right,
non-overlapping), with fuel `|s|`; every step consumes at least one character
of `s` so the fuel never runs out.  The resolver only replaces non-empty
patterns of the shape `\x7bX\x7d`. -/
def pyReplaceFuel (old new : List Char) : Nat → List Char → List Char
  | _, [] => []
  | 0, s => s
  | f + 1, c :: rest =>
    if !old.isEmpty && old.isPrefixOf (c :: rest) then
      new ++ pyReplaceFuel old new f ((c :: rest).drop old.length)
    else c :: pyReplaceFuel old new f rest

def pyReplaceS (s old new : String) : String :=
  String.mk (pyReplaceFuel old.data new.data s.data.length s.data)

/-- The string `\x7bm\x7d` rebuilt around a match, as the f-string
`f"\x7b\x7b\x7bmatch\x7d\x7d\x7d"` does. -/
def phOf (m : String) : String := String.mk (lbrace :: m.data ++ [rbrace])

/-- `'.' in s`. -/
def hasDot (s : String) : Bool := s.data.any (· = '.')

/-- The full-placeholder test on a resolved dict value:
`startswith('\x7b') and endswith('\x7d') and count('\x7b') == 1`. -/
def isFullPH (s : String) : Bool :=
  s.data.head? = some lbrace && s.data.getLast? = some rbrace && s.data.count lbrace = 1

/-- `s[1:-1]`. -/
def innerPH (s : String) : String := String.mk (s.data.drop 1).dropLast

/-- Python `int(cs)` restricted to an optional sign and decimal digits;
anything else is a `ValueError`, which the resolver does not catch. -/
def digitsVal (cs : List Char) : Int :=
  cs.foldl (fun a c => a * 10 + (Int.ofNat (c.toNat - 48))) 0

def pyInt : List Char → Option Int
  | [] => none
  | '-' :: ds => if !ds.isEmpty && ds.all Char.isDigit then some (-(digitsVal ds)) else none
  | '+' :: ds => if !ds.isEmpty && ds.all Char.isDigit then some (digitsVal ds) else none
  | ds => if ds.all Char.isDigit then some (digitsVal ds) else none

/-- Python `s.isdigit()`. -/
def isdigitStr (s : String) : Bool := !s.data.isEmpty && s.data.all Char.isDigit

/-- Exceptions of the string-branch path walk: `caught` stands for
`KeyError`/`TypeError` (swallowed, the placeholder stays), `uncaught` for
`ValueError`/`IndexError` (which escape `resolve_context_values`). -/
inductive PyErr where
  | caught
  | uncaught
deriving Repr, DecidableEq

/-- Python sequence indexing with negative-index wrapping; out of range is an
uncaught `IndexError`. -/
def listIndex (xs : List J) (i : Int) : Except PyErr J :=
  let j := if i < 0 then i + Int.ofNat xs.length else i
  if j < 0 then .error .uncaught
  else
    match xs.get? j.toNat with
    | some v => .ok v
    | none => .error .uncaught

def charIndex (s : String) (i : Int) : Except PyErr J :=
  match listIndex (s.data.map (fun c => J.str (String.singleton c))) i with
  | .ok v => .ok v
  | .error e => .error e

/-- `value[key][idx]`'s second subscript: a list or string indexes (possibly
raising `IndexError`), a dict raises `KeyError` (no integer keys exist in an
embedded object), any scalar raises `TypeError`. -/
def pyIndexVal : J → Int → Except PyErr J
  | .arr xs, i => listIndex xs i
  | .str s, i => charIndex s i
  | .obj _, _ => .error .caught
  | _, _ => .error .caught

/-- The path walk of the string (partial-substitution) branch
(automation_engine.py 270-288), including `name[index]` parts and
digit-indexing into sequences. -/
def strWalk : J → List String → Except PyErr J
  | v, [] => .ok v
  | v, p :: ps =>
    if p.data.contains '[' && p.data.contains ']' then
      let i := p.data.findIdx (· = '[')
      let jj := p.data.findIdx (· = ']')
      let key := String.mk (p.data.take i)
      let idxCs := (p.data.drop (i + 1)).take (jj - (i + 1))
      match pyInt idxCs with
      | none => .error .uncaught
      | some idx =>
        match v with
        | .obj kvs =>
          match olookup kvs key with
          | none => .error .caught
          | some v1 =>
            match pyIndexVal v1 idx with
            | .ok v2 => strWalk v2 ps
            | .error e => .error e
        | .arr xs =>
          match listIndex xs idx with
          | .ok v2 => strWalk v2 ps
          | .error e => .error e
        | _ => .error .caught
    else
      match v with
      | .obj kvs =>
        match olookup kvs p with
        | some v' => strWalk v' ps
        | none => .error .caught
      | .arr xs =>
        if isdigitStr p then
          match listIndex xs (digitsVal p.data) with
          | .ok v2 => strWalk v2 ps
          | .error e => .error e
        else .error .caught
      | _ => .error .caught

/-- One match of the string branch: a dotted match walks and substitutes
`str(value)` (`KeyError`/`TypeError` leave the text untouched, other
exceptions escape); a plain match substitutes only when it is a key of the
context. -/
def subst1 (ctx : Obj) (acc : String) (m : String) : Except Unit String :=
  if hasDot m then
    match strWalk (J.obj ctx) (splitDot m) with
    | .ok v => .ok (pyReplaceS acc (phOf m) (pyStr v))
    | .error .caught => .ok acc
    | .error .uncaught => .error ()
  else
    match olookup ctx m with
    | some v => .ok (pyReplaceS acc (phOf m) (pyStr v))
    | none => .ok acc

def substAll (ctx : Obj) : List String → String → Except Unit String
  | [], acc => .ok acc
  | m :: rest, acc =>
    match subst1 ctx acc m with
    | .ok acc' => substAll ctx rest acc'
    | .error e => .error e

/-- The string branch of `resolve_context_values`: find every placeholder of
the original string, then substitute them one after another on the evolving
string. -/
def resolveStr (ctx : Obj) (s : String) : Except Unit String :=
  substAll ctx (pyFindall s) s

/-- The dict-branch walk for a surviving full placeholder with dots
(automation_engine.py 240-248): only mapping steps are followed; a non-dict
intermediate value `break`s out and the key is dropped, a missing key raises
a caught `KeyError` with the same effect. -/
def dictWalk : J → List String → Option J
  | v, [] => some v
  | .obj kvs, p :: ps =>
    match olookup kvs p with
    | some v' => dictWalk v' ps
    | none => none
  | _, _ :: _ => none

/-- The dict branch's treatment of an already-resolved value: a string that
still is a single full placeholder is dropped (`none`) unless its body either
dict-walks (dotted; the walked value is kept, typed) or is a key of the
context (undotted; the placeholder string itself is kept). -/
def fullPHStep (rv : J) (ctx : Obj) : Option J :=
  match rv with
  | .str s =>
    if isFullPH s then
      let x := innerPH s
      if hasDot x then
        match dictWalk (J.obj ctx) (splitDot x) with
        | some v => some v
        | none => none
      else if ohas ctx x then some (.str s) else none
    else some (.str s)
  | v => some v

mutual

/-- `resolve_context_values(params, context)`; `.error ()` is an exception
escaping the function (`ValueError`/`IndexError` from the walk). -/
def resolveV : J → Obj → Except Unit J
  | .obj kvs, ctx =>
    match resolveObjM kvs ctx with
    | .ok rs => .ok (.obj rs)
    | .error e => .error e
  | .arr xs, ctx =>
    match resolveArrM xs ctx with
    | .ok ys => .ok (.arr ys)
    | .error e => .error e
  | .str s, ctx =>
    match resolveStr ctx s with
    | .ok r => .ok (.str r)
    | .error e => .error e
  | v, _ => .ok v

def resolveArrM : List J → Obj → Except Unit (List J)
  | [], _ => .ok []
  | x :: rest, ctx =>
    match resolveV x ctx with
    | .error e => .error e
    | .ok y =>
      match resolveArrM rest ctx with
      | .error e => .error e
      | .ok ys => .ok (y :: ys)

def resolveObjM : List (String × J) → Obj → Except Unit (List (String × J))
  | [], _ => .ok []
  | (k, v) :: rest, ctx =>
    match resolveV v ctx with
    | .error e => .error e
    | .ok rv =>
      match resolveObjM rest ctx with
      | .error e => .error e
      | .ok restKvs =>
        match fullPHStep rv ctx with
        | none => .ok restKvs
        | some keep => .ok ((k, keep) :: restKvs)

end

def resolve_context_values (p : J) (ctx : Obj) : Except Unit J := resolveV p ctx

/-! ## Timeout selection (automation_engine.py 314-315, 402, 506-511) -/

/-- `action_timeout = timeout or action.get('timeout', 30)` in `run_action`:
the `timeout` argument wins unless it is falsy (`None`, here `none`, or `0`). -/
def run_action_timeout (timeout : Option Int) (action_timeout_field : Option Int) : Int :=
  match timeout with
  | some t => if t = 0 then action_timeout_field.getD 30 else t
  | none => action_timeout_field.getD 30

/-- `rule_timeout = rule.get('timeout', 30)` in `process_queue_entry_with_lock`. -/
def rule_timeout_of (rule_timeout_field : Option Int) : Int :=
  rule_timeout_field.getD 30

/-- The timeout a leaf action is run under when `process_queue_entry_with_lock`
invokes `run_action(rule["action"], context, timeout=rule_timeout)`. -/
def process_queue_effective_timeout (ruleT actionT : Option Int) : Int :=
  run_action_timeout (some (rule_timeout_of ruleT)) actionT

/-- `step_timeout = step.get('timeout', timeout)` in `run_workflow_steps`. -/
def step_timeout_of (stepT : Option Int) (workflow_timeout : Int) : Int :=
  stepT.getD workflow_timeout

/-! ## Entry collections and status transitions -/

/-- Generic assoc-list lookup for string-keyed dicts of entries/tasks. -/
def alookup {α : Type} : List (String × α) → String → Option α
  | [], _ => none
  | (k', v) :: rest, k => if k' = k then some v else alookup rest k

def aset {α : Type} : List (String × α) → String → α → List (String × α)
  | [], k, v => [(k, v)]
  | (k', v') :: rest, k, v =>
    if k' = k then (k', v) :: rest else (k', v') :: aset rest k v

/-- `entry.get('status', '') in (...)`: a missing or non-string status never
matches any of the string literals the engine compares against. -/
def statusIn (e : Obj) (l : List String) : Bool :=
  match olookup e "status" with
  | some (.str s) => l.contains s
  | _ => false

def statusIs (e : Obj) (s : String) : Bool := statusIn e [s]

/-- `f"...{entry_status}"`: the status component of a session key stringifies
`entry.get('status', '')`. -/
def statusKeyStr (e : Obj) : String :=
  pyStr ((olookup e "status").getD (.str ""))

/-- `atomic_update_entry_status` (automation_engine.py 90-110) on the file's
`entries` dict: result is the new entries together with the returned bool.
Timestamps are integers standing for `datetime.now().isoformat()`. -/
def atomic_update_entry_status (entries : List (String × Obj)) (entry_key : String)
    (new_status : String) (now : Int) (extra_fields : Obj) :
    List (String × Obj) × Bool :=
  match alookup entries entry_key with
  | none => (entries, false)
  | some entry =>
    let e1 := oset entry "status" (.str new_status)
    let e2 := oset e1 "updated_at" (.num now)
    let e3 :=
      if statusIs entry new_status then e2
      else oset e2 "status_changed_at" (.num now)
    let e4 := extra_fields.foldl (fun e kv => oset e kv.1 kv.2) e3
    (aset entries entry_key e4, true)

/-- Phase 1 of `process_queue_entry_with_lock` (automation_engine.py 480-496):
under the file lock, skip when the entry is missing or already
processing/processed/failed/timeout_failed, else write `status = processing`
and `updated_at` (and nothing else). -/
def mark_processing (entries : List (String × Obj)) (key : String) (now : Int) :
    List (String × Obj) × Bool :=
  match alookup entries key with
  | none => (entries, false)
  | some entry =>
    if statusIn entry ["processing", "processed", "failed", "timeout_failed"] then
      (entries, false)
    else
      let e1 := oset entry "status" (.str "processing")
      let e2 := oset e1 "updated_at" (.num now)
      (aset entries key e2, true)

/-- The success path of `process_queue_entry_with_lock` (automation_engine.py
526-535): if the re-read status is still `processing`, promote to `processed`
setting `updated_at` (and nothing else). -/
def promote_processed (entries : List (String × Obj)) (key : String) (now : Int) :
    List (String × Obj) :=
  match alookup entries key with
  | none => entries
  | some entry =>
    if statusIs entry "processing" then
      aset entries key (oset (oset entry "status" (.str "processed")) "updated_at" (.num now))
    else entries

/-! ## Retry with exponential backoff (`retry_failed_entries`,
automation_engine.py 1339-1419).  Times are in minutes, matching the
`base * 3^attempt` minute schedule; `retry_count` values are taken
non-negative, as the engine itself only ever writes `0, 1, 2, …`. -/

inductive RetryOutcome where
  | skipped
  | notYet
  | retried
  | permanentlyFailed
deriving Repr, DecidableEq

/-- `entry.get('retry_count', 0)`. -/
def retry_count_of (e : Obj) : Int :=
  match olookup e "retry_count" with
  | some (.num n) => n
  | _ => 0

/-- `next_retry` gate: absent or falsy `next_retry` proceeds, a timestamp
blocks while `now < next_retry`. -/
def retryEligible (now : Int) (entry : Obj) : Bool :=
  match olookup entry "next_retry" with
  | some (.num t) => !(now < t)
  | _ => true

/-- The per-entry body of the `retry_failed_entries` loop. -/
def retry_entry (max_retries retry_delay_base now : Int) (entry : Obj) :
    Obj × RetryOutcome :=
  if !(statusIn entry ["failed", "timeout_failed"]) then (entry, .skipped)
  else
    let rc := retry_count_of entry
    if rc ≥ max_retries then
      if statusIs entry "permanently_failed" then (entry, .skipped)
      else
        (oset (oset entry "status" (.str "permanently_failed")) "updated_at" (.num now),
          .permanentlyFailed)
    else
      if retryEligible now entry then
        let delay := retry_delay_base * 3 ^ rc.toNat
        let e1 := oset entry "status" (.str "queued")
        let e2 := oset e1 "retry_count" (.num (rc + 1))
        let e3 := oset e2 "last_retry" (.num now)
        let e4 := oset e3 "next_retry" (.num (now + delay))
        let e5 := oset e4 "updated_at" (.num now)
        let e6 :=
          match olookup e5 "error" with
          | some err => oerase (oset e5 "previous_error" err) "error"
          | none => e5
        (e6, .retried)
      else (entry, .notYet)

/-- The whole scan: returns the rewritten entries (order preserved) plus the
`retried` and `permanently_failed` key lists. -/
def retry_failed_entries (max_retries retry_delay_base now : Int) :
    List (String × Obj) → List (String × Obj) × List String × List String
  | [] => ([], [], [])
  | (k, e) :: rest =>
    let r := retry_entry max_retries retry_delay_base now e
    let t := retry_failed_entries max_retries retry_delay_base now rest
    ((k, r.1) :: t.1,
      (if r.2 = .retried then k :: t.2.1 else t.2.1),
      (if r.2 = .permanentlyFailed then k :: t.2.2 else t.2.2))

/-! ## The engine loop's file-backed trigger processing
(`engine_loop`, automation_engine.py 545-654, 740-741).

The `eval`-based event-type test and rule condition are abstracted as boolean
predicates over `(key, old_entry, new_entry)`; an exception during evaluation
makes the engine `continue`, which is the same as the predicate being false,
so errors are folded into `false`.  A missing event-type `test` expression
skips every rule of that trigger type (`if not test_expr: continue`).
Firing decisions are recorded as `FireEv` events; the session set
`processed_this_session` is a duplicate-free list of key strings. -/

abbrev Pred := String → Obj → Obj → Bool

structure EngineRule where
  cond : Option Pred

structure FireEv where
  rule_key : String
  entry_key : String
  session_key : String
deriving Repr, DecidableEq

/-- `f"\x7bfile_path\x7d:\x7bkey\x7d:added"`. -/
def sessionKeyAdded (file key : String) : String :=
  file ++ ":" ++ key ++ ":added"

/-- `f"\x7bfile_path\x7d:\x7bkey\x7d:\x7brule_key\x7d:\x7bentry_status\x7d"`. -/
def sessionKeyUpdated (file key rule_key status : String) : String :=
  file ++ ":" ++ key ++ ":" ++ rule_key ++ ":" ++ status

/-- Session set plus the firing decisions taken so far. -/
abbrev EngSt := List String × List FireEv

/-- The `entry_added` per-entry decision (automation_engine.py 580-607): the
action fires exactly when the chain of `continue`s — status filter,
session-dedup check, event test, rule condition — all pass.  The conjuncts
appear in the source's order. -/
def addedFires (file : String) (test : Pred) (r : EngineRule)
    (old_entries : List (String × Obj)) (session : List String)
    (kv : String × Obj) : Bool :=
  !(statusIn kv.2 ["processed", "processing", "failed"]) &&
  !(session.contains (sessionKeyAdded file kv.1)) &&
  test kv.1 ((alookup old_entries kv.1).getD []) kv.2 &&
  (match r.cond with
   | some c => c kv.1 ((alookup old_entries kv.1).getD []) kv.2
   | none => true)

/-- The session-independent part of the `entry_added` decision: event test
and rule condition. -/
def addedPasses (test : Pred) (r : EngineRule) (oe : Obj) (key : String) (ne : Obj) : Bool :=
  test key oe ne &&
  (match r.cond with
   | some c => c key oe ne
   | none => true)

/-- Body of the `entry_added` per-entry loop: on firing, record the session
key and process the entry. -/
def addedEntryStep (file : String) (test : Pred) (rule_key : String) (r : EngineRule)
    (old_entries : List (String × Obj)) (st : EngSt) (kv : String × Obj) : EngSt :=
  if addedFires file test r old_entries st.1 kv then
    (sessionKeyAdded file kv.1 :: st.1, st.2 ++ [⟨rule_key, kv.1, sessionKeyAdded file kv.1⟩])
  else st

/-- The `entry_updated` per-entry decision (automation_engine.py 614-652):
presence in the old snapshot, status filter, event test, session-dedup check
on `(file, key, rule_key, status)`, rule condition. -/
def updatedFires (file : String) (test : Pred) (rule_key : String) (r : EngineRule)
    (old_entries : List (String × Obj)) (session : List String)
    (kv : String × Obj) : Bool :=
  match alookup old_entries kv.1 with
  | none => false
  | some oe =>
    !(statusIn kv.2 ["processing", "failed"]) &&
    test kv.1 oe kv.2 &&
    !(session.contains (sessionKeyUpdated file kv.1 rule_key (statusKeyStr kv.2))) &&
    (match r.cond with
     | some c => c kv.1 oe kv.2
     | none => true)

/-- Body of the `entry_updated` per-entry loop: on firing, record the session
key and run the action. -/
def updatedEntryStep (file : String) (test : Pred) (rule_key : String) (r : EngineRule)
    (old_entries : List (String × Obj)) (st : EngSt) (kv : String × Obj) : EngSt :=
  if updatedFires file test rule_key r old_entries st.1 kv then
    (sessionKeyUpdated file kv.1 rule_key (statusKeyStr kv.2) :: st.1,
      st.2 ++ [⟨rule_key, kv.1, sessionKeyUpdated file kv.1 rule_key (statusKeyStr kv.2)⟩])
  else st

def procAdded (file : String) (testOpt : Option Pred)
    (rules : List (String × EngineRule)) (old_entries new_entries : List (String × Obj))
    (st : EngSt) : EngSt :=
  match testOpt with
  | none => st
  | some test =>
    rules.foldl
      (fun st rkr => new_entries.foldl (addedEntryStep file test rkr.1 rkr.2 old_entries) st)
      st

def procUpdated (file : String) (testOpt : Option Pred)
    (rules : List (String × EngineRule)) (old_entries new_entries : List (String × Obj))
    (st : EngSt) : EngSt :=
  match testOpt with
  | none => st
  | some test =>
    rules.foldl
      (fun st rkr => new_entries.foldl (updatedEntryStep file test rkr.1 rkr.2 old_entries) st)
      st

/-- One poll iteration's processing of one observed file: the `entry_added`
rules run first, then the `entry_updated` rules, sharing the session set.
Returns the final session together with the added-trigger and
updated-trigger firings. -/
def pollFile (file : String) (testAdded testUpdated : Option Pred)
    (addedRules updatedRules : List (String × EngineRule))
    (old_entries new_entries : List (String × Obj)) (session : List String) :
    List String × List FireEv × List FireEv :=
  let stA := procAdded file testAdded addedRules old_entries new_entries (session, [])
  let stU := procUpdated file testUpdated updatedRules old_entries new_entries (stA.1, [])
  (stU.1, stA.2, stU.2)

/-- End of the iteration (automation_engine.py 740-741): the session set is
cleared once it exceeds 10,000 entries. -/
def sessionAfterIteration (s : List String) : List String :=
  if 10000 < s.length then [] else s

/-! ## Workflow execution (`run_workflow_steps`, automation_engine.py 386-473).

The subprocess tool invocation is abstracted as a function from the built
call to either a wall-clock timeout (`subprocess.TimeoutExpired`) or an
output whose stdout may or may not parse as JSON.  The model returns, next
to the resulting `previous_output` (or error/timeout object), the trace of
invocations actually made.  Error messages omit the interpolated Python
exception text. -/

structure ToolCall where
  tool : String
  action : String
  params : J
  timeout : Int
deriving Repr

inductive InvokeResult where
  | timeout
  | output (parsed : Option J) (raw : String)

abbrev Invoker := ToolCall → InvokeResult

/-- `json.loads(result.stdout.strip())` with the `JSONDecodeError` fallback
`\x7b"status": "completed", "output": raw\x7d`. -/
def parseOutput (parsed : Option J) (raw : String) : J :=
  match parsed with
  | some j => j
  | none => .obj [("status", .str "completed"), ("output", .str raw)]

/-- `d[k]` on an arbitrary value: `none` is a `KeyError` (missing key) or
`TypeError` (not a dict), both caught by the step's `except Exception`. -/
def getItem (v : J) (k : String) : Option J :=
  match v with
  | .obj kvs => olookup kvs k
  | _ => none

/-- `resolved_step['tool'] in registry`: only a string can equal a registry
name. -/
def registryHit (registry : List String) (toolV : J) : Bool :=
  match toolV with
  | .str s => registry.contains s
  | _ => false

/-- The params finally passed: registry tools get the `bypass_enforcement`
sentinel injected into a copy (an empty dict replaces non-dict params). -/
def finalParamsOf (registry : List String) (toolV paramsV : J) : J :=
  if registryHit registry toolV then
    match paramsV with
    | .obj kvs => J.obj (oset kvs "bypass_enforcement" (.str "automation_engine"))
    | _ => J.obj [("bypass_enforcement", .str "automation_engine")]
  else paramsV

def outStatus (o : Obj) : Option String :=
  match olookup o "status" with
  | some (.str s) => some s
  | _ => none

def stepTimeoutObj (i : Nat) (t : Int) : J :=
  .obj [("status", .str "timeout_failed"),
    ("message", .str ("Step " ++ toString (i + 1) ++ " timed out after " ++ toString t ++ "s"))]

def foreachTimeoutObj (t : Int) : J :=
  .obj [("status", .str "timeout_failed"),
    ("message", .str ("Foreach step timed out after " ++ toString t ++ "s"))]

def stepFailObj (i : Nat) : J :=
  .obj [("status", .str "error"),
    ("message", .str ("Step " ++ toString (i + 1) ++ " execution failed"))]

def foreachFailObj : J :=
  .obj [("status", .str "error"), ("message", .str "Foreach step failed")]

/-- The foreach array walk `array_data = array_data[part]` over the step
context: any `KeyError`/`TypeError` is caught by the surrounding
`except Exception` and fails the foreach step. -/
def foreachWalk : J → List String → Option J
  | v, [] => some v
  | .obj kvs, p :: ps =>
    match olookup kvs p with
    | some v' => foreachWalk v' ps
    | none => none
  | _, _ :: _ => none

/-- Python iteration as `enumerate` sees it: lists yield elements, dicts
their keys, strings their characters; scalars raise `TypeError`. -/
def pyIter : J → Option (List J)
  | .arr xs => some xs
  | .obj kvs => some (kvs.map (fun kv => J.str kv.1))
  | .str s => some (s.data.map (fun c => J.str (String.singleton c)))
  | _ => none

/-- `step.get('steps', [])` made iterable. -/
def stepsOf (stepO : Obj) : Option (List J) :=
  match olookup stepO "steps" with
  | none => some []
  | some v => pyIter v

/-- One item's sub-step loop (automation_engine.py 418-437): resolve the
sub-step against the item context, build and run the command under the step
timeout, parse the output, and thread it as `prev`.  A wall-clock timeout
terminates the whole workflow; NOTE the parsed output's `status` field is
not inspected here.  `.inl` = workflow-terminating value, `.inr` = the last
`sub_output` (if any sub-step ran). -/
def runSubSteps (inv : Invoker) (registry : List String) (step_timeout : Int) :
    List J → Obj → Option J → (J ⊕ Option J) × List ToolCall
  | [], _, lastOut => (.inr lastOut, [])
  | sub :: rest, item_ctx, _lastOut =>
    match resolve_context_values sub item_ctx with
    | .error _ => (.inl foreachFailObj, [])
    | .ok resolved =>
      match getItem resolved "tool", getItem resolved "action", getItem resolved "params" with
      | some toolV, some actionV, some paramsV =>
        let call : ToolCall :=
          ⟨pyStr toolV, pyStr actionV, finalParamsOf registry toolV paramsV, step_timeout⟩
        (match inv call with
         | .timeout => (.inl (foreachTimeoutObj step_timeout), [call])
         | .output parsed raw =>
           let sub_output := parseOutput parsed raw
           match runSubSteps inv registry step_timeout rest (oset item_ctx "prev" sub_output)
               (some sub_output) with
           | (r, tr) => (r, call :: tr))
      | _, _, _ => (.inl foreachFailObj, [])

/-- The item loop (automation_engine.py 414-438): each item gets a fresh copy
of the step context extended with `item` and `index`; after its sub-steps,
the function-scoped `sub_output` is appended (a `NameError` — no sub-step has
ever run — fails the foreach step). -/
def runItems (inv : Invoker) (registry : List String) (step_timeout : Int)
    (sub_steps : List J) (step_ctx : Obj) :
    List J → Nat → Option J → (J ⊕ List J) × List ToolCall
  | [], _, _ => (.inr [], [])
  | item :: rest, idx, lastOut =>
    let item_ctx := oset (oset step_ctx "item" item) "index" (.num (Int.ofNat idx))
    match runSubSteps inv registry step_timeout sub_steps item_ctx lastOut with
    | (.inl term, tr) => (.inl term, tr)
    | (.inr lastOut', tr) =>
      match lastOut' with
      | none => (.inl foreachFailObj, tr)
      | some out =>
        match runItems inv registry step_timeout sub_steps step_ctx rest (idx + 1) lastOut' with
        | (.inl term, tr2) => (.inl term, tr ++ tr2)
        | (.inr outs, tr2) => (.inr (out :: outs), tr ++ tr2)

/-- The `foreach` step (automation_engine.py 406-444): resolve the dotted
array path against the step context, iterate, and on success produce
`\x7bresults, processed_count\x7d`. -/
def runForeach (inv : Invoker) (registry : List String) (step_timeout : Int)
    (stepO : Obj) (step_ctx : Obj) : (J ⊕ J) × List ToolCall :=
  match olookup stepO "array" with
  | some (.str arrayPath) =>
    match foreachWalk (J.obj step_ctx) (splitDot arrayPath) with
    | none => (.inl foreachFailObj, [])
    | some arrData =>
      match pyIter arrData with
      | none => (.inl foreachFailObj, [])
      | some items =>
        match stepsOf stepO with
        | none => (.inl foreachFailObj, [])
        | some sub_steps =>
          match runItems inv registry step_timeout sub_steps step_ctx items 0 none with
          | (.inl term, tr) => (.inl term, tr)
          | (.inr results, tr) =>
            (.inr (J.obj [("results", .arr results),
              ("processed_count", .num (Int.ofNat results.length))]), tr)
  | _ => (.inl foreachFailObj, [])

/-- One workflow step (automation_engine.py 400-472): per-step timeout
`step.get('timeout', timeout)`, the `prev` binding, the foreach dispatch, and
for leaf steps the invocation with the `status == error / timeout_failed`
short-circuit.  `.inl` terminates the workflow with the given value. -/
def runStep (inv : Invoker) (registry : List String) (i : Nat) (workflow_timeout : Int)
    (ctx : Obj) (prev : J) (step : J) : (J ⊕ J) × List ToolCall :=
  match step with
  | .obj stepO =>
    let step_timeout :=
      match olookup stepO "timeout" with
      | some (.num t) => t
      | _ => workflow_timeout
    let step_ctx := oset ctx "prev" prev
    if (match olookup stepO "type" with
        | some (.str s) => s == "foreach"
        | _ => false) then
      runForeach inv registry step_timeout stepO step_ctx
    else
      match resolve_context_values ((olookup stepO "params").getD (.obj [])) step_ctx with
      | .error _ => (.inl (stepFailObj i), [])
      | .ok resolved_params =>
        match olookup stepO "tool", olookup stepO "action" with
        | some toolV, some actionV =>
          let call : ToolCall :=
            ⟨pyStr toolV, pyStr actionV, finalParamsOf registry toolV resolved_params,
              step_timeout⟩
          (match inv call with
           | .timeout => (.inl (stepTimeoutObj i step_timeout), [call])
           | .output parsed raw =>
             match parseOutput parsed raw with
             | .obj so =>
               if outStatus so = some "error" ∨ outStatus so = some "timeout_failed" then
                 (.inl (.obj so), [call])
               else (.inr (.obj so), [call])
             | _ => (.inl (stepFailObj i), [call]))
        | _, _ => (.inl (stepFailObj i), [])
  | _ => (.inl (stepFailObj i), [])

def runSteps (inv : Invoker) (registry : List String) (ctx : Obj) (timeout : Int) :
    List J → Nat → J → J × List ToolCall
  | [], _, prev => (prev, [])
  | step :: rest, i, prev =>
    match runStep inv registry i timeout ctx prev step with
    | (.inl term, tr) => (term, tr)
    | (.inr newPrev, tr) =>
      match runSteps inv registry ctx timeout rest (i + 1) newPrev with
      | (res, tr2) => (res, tr ++ tr2)

/-- `run_workflow_steps(steps, initial_context, timeout)`: `previous_output`
starts as the empty dict. -/
def run_workflow_steps (inv : Invoker) (registry : List String) (steps : List J)
    (initial_context : Obj) (timeout : Int) : J × List ToolCall :=
  runSteps inv registry initial_context timeout steps 0 (J.obj [])

/-! ## Agent Supervisor: the task queue (`claude_assistant.py`) -/

structure Task where
  status : String
  agent_id : Option String
  started_at : Option Int
  processing_started_at : Option Int
  created_at : Option Int
  description : String
deriving Repr, DecidableEq

/-- `if agent_id:` — `None` and the empty string are falsy and disable the
filter; otherwise only tasks whose `agent_id` field equals it pass. -/
def agentFilterPass (agent_id : Option String) (t : Task) : Bool :=
  match agent_id with
  | some a => if a = "" then true else t.agent_id = some a
  | none => true

/-- `process_queue` (claude_assistant.py 529-613): every `queued` task
passing the agent filter becomes `in_progress` with `started_at` stamped to
the one `now` taken before the loop; returns the rewritten queue and the
claimed task ids in queue order. -/
def process_queue (agent_id : Option String) (now : Int) :
    List (String × Task) → List (String × Task) × List String
  | [] => ([], [])
  | (tid, t) :: rest =>
    let r := process_queue agent_id now rest
    if t.status = "queued" && agentFilterPass agent_id t then
      ((tid, { t with status := "in_progress", started_at := some now }) :: r.1, tid :: r.2)
    else ((tid, t) :: r.1, r.2)

/-! ## Agent Supervisor: `execute_queue` (claude_assistant.py 699-924).

Liveness probing (`os.kill(pid, 0)`) is abstracted as a predicate on pids;
the worker spawner is abstracted as the list of pids it hands out in spawn
order (the spec's worker-spawner interface).  Timestamps are in seconds here,
so the 30-minute age test is `now - created_at > 1800`. -/

def MAX_PARALLEL_AGENTS : Nat := 3

structure LockInfo where
  created_at : Option Int
  pid : Option Int
  pids : List Int
  task_count : Int
  parallel : Int
  agents : List String
deriving Repr, DecidableEq

/-- `all_pids = pids if pids else ([pid] if pid else [])` — note pid `0` is
falsy. -/
def allPids (l : LockInfo) : List Int :=
  if l.pids.isEmpty then
    match l.pid with
    | some p => if p = 0 then [] else [p]
    | none => []
  else l.pids

/-- `count_running_agents` (claude_assistant.py 24-49). -/
def count_running_agents (lock : Option LockInfo) (alive : Int → Bool) : Nat :=
  match lock with
  | none => 0
  | some l => ((allPids l).filter alive).length

/-- `enforce_agent_limit` (claude_assistant.py 51-56). -/
def enforce_agent_limit (lock : Option LockInfo) (alive : Int → Bool) : Bool :=
  count_running_agents lock alive < MAX_PARALLEL_AGENTS

inductive LockCheck where
  | removed
  | alreadyRunning
deriving Repr, DecidableEq

/-- The lockfile examination (claude_assistant.py 736-785): age over 30
minutes wins first; otherwise one live pid refuses, no live pid reclaims. -/
def lockCheck (now : Int) (alive : Int → Bool) (l : LockInfo) : LockCheck :=
  let ageStale :=
    match l.created_at with
    | some t => decide ((1800 : Int) < now - t)
    | none => false
  if ageStale then .removed
  else if (allPids l).any alive then .alreadyRunning
  else .removed

def queuedTasks (q : List (String × Task)) : List (String × Task) :=
  q.filter (fun kv => kv.2.status = "queued")

/-- `task_data.get("agent_id", "agent_1")`. -/
def agentOf (t : Task) : String := t.agent_id.getD "agent_1"

def agentTaskCount (q : List (String × Task)) (aid : String) : Nat :=
  ((queuedTasks q).filter (fun kv => agentOf kv.2 = aid)).length

def insertStr (x : String) : List String → List String
  | [] => [x]
  | y :: rest => if x ≤ y then x :: y :: rest else y :: insertStr x rest

/-- `sorted(...)` on strings. -/
def sortStrs : List String → List String
  | [] => []
  | x :: rest => insertStr x (sortStrs rest)

structure SpawnRec where
  agent_id : Option String
  pid : Int
  tasks : Nat
deriving Repr, DecidableEq

structure EQResult where
  status : String
  lockAfter : Option LockInfo
  spawned : List SpawnRec
deriving Repr

/-- The spawn-and-relock tail of `execute_queue` (claude_assistant.py
787-924), entered after any stale lock was removed. -/
def executeSpawn (now : Int) (queue : List (String × Task)) (parallel : Int)
    (agent_id : Option String) (spawnPids : List Int) : EQResult :=
  let task_count := (queuedTasks queue).length
  if task_count = 0 then ⟨"success", none, []⟩
  else
    let spawned :=
      if 1 < parallel then
        let ids := (sortStrs ((queuedTasks queue).map (fun kv => agentOf kv.2)).dedup).take
          MAX_PARALLEL_AGENTS
        (ids.zip spawnPids).map
          (fun ap => SpawnRec.mk (some ap.1) ap.2 (agentTaskCount queue ap.1))
      else
        match spawnPids with
        | p :: _ => [SpawnRec.mk agent_id p task_count]
        | [] => []
    let pids := spawned.map (·.pid)
    let newLock : LockInfo :=
      ⟨some now, (if pids.length = 1 then pids.head? else none), pids,
        Int.ofNat task_count, parallel,
        spawned.filterMap (fun s =>
          match s.agent_id with
          | some a => if a = "" then none else some a
          | none => none)⟩
    ⟨"task_started", some newLock, spawned⟩

/-- `execute_queue`: the nesting sentinel, the parallel clamp, the prison
guard, the lockfile examination, then spawning. -/
def execute_queue (claudecode : Bool) (lock : Option LockInfo) (now : Int)
    (alive : Int → Bool) (queue : List (String × Task)) (parallelParam : Int)
    (agent_id : Option String) (spawnPids : List Int) : EQResult :=
  if claudecode then ⟨"error", lock, []⟩
  else
    let parallel := min (max parallelParam 1) (Int.ofNat MAX_PARALLEL_AGENTS)
    if !(enforce_agent_limit lock alive) then ⟨"blocked", lock, []⟩
    else
      match lock with
      | some l =>
        (match lockCheck now alive l with
         | .alreadyRunning => ⟨"already_running", lock, []⟩
         | .removed => executeSpawn now queue parallel agent_id spawnPids)
      | none => executeSpawn now queue parallel agent_id spawnPids

/-! ## Agent Supervisor: results cap and archive (`log_task_completion`,
claude_assistant.py 1067-1188).  Results are `task_id → result` association
lists; `completed_at` is the ISO string sort key, defaulting to `""`. -/

def completedAtOf (r : Obj) : String :=
  match olookup r "completed_at" with
  | some (.str s) => s
  | _ => ""

/-- The sort relation `key=lambda x: x[1].get("completed_at", "")`. -/
def completedLe (x y : String × Obj) : Prop :=
  completedAtOf x.2 ≤ completedAtOf y.2

instance : DecidableRel completedLe := fun x y =>
  inferInstanceAs (Decidable (completedAtOf x.2 ≤ completedAtOf y.2))

/-- Python's stable ascending `sorted(...)`: insertion sort places each
element before the first later-listed element not below it, which is the
unique stable ascending order. -/
def sortByCompleted (l : List (String × Obj)) : List (String × Obj) :=
  l.insertionSort completedLe

/-- The archive step (claude_assistant.py 1080-1136): only when more than 10
results pre-exist, sort ascending by `completed_at`, keep the last 10 (the
keep-set replaces the dict, in sorted order) and flush the rest to the
JSON-lines archive. -/
def archiveResults (results : List (String × Obj)) :
    List (String × Obj) × List (String × Obj) :=
  if 10 < results.length then
    let sorted := sortByCompleted results
    (sorted.drop (sorted.length - 10), sorted.take (sorted.length - 10))
  else (results, [])

/-- The results-file effect of one `log_task_completion` call: archive, then
insert the new record (claude_assistant.py 1160-1186).  Returns the new
results mapping and the archived overflow. -/
def log_completion_results (results : List (String × Obj)) (task_id : String)
    (newRes : Obj) : List (String × Obj) × List (String × Obj) :=
  let ar := archiveResults results
  (aset ar.1 task_id newRes, ar.2)

/-- Execution-time source precedence (claude_assistant.py 1051-1062):
`processing_started_at` over `started_at` over `created_at`. -/
def executionTimeSource (t : Task) : Option Int :=
  match t.processing_started_at with
  | some x => some x
  | none =>
    match t.started_at with
    | some x => some x
    | none => t.created_at

/-- A sub-step with no placeholders, used to exercise the foreach model. -/
def plainSubStep : J :=
  J.obj [("tool", J.str "t"), ("action", J.str "a"), ("params", J.obj [])]

/-- A foreach step over the context array `items` running `plainSubStep`. -/
def itemsForeachStep : J :=
  J.obj [("type", J.str "foreach"), ("array", J.str "items"),
    ("steps", J.arr [plainSubStep])]

/-! ### Session-extension invariant -/

def skeys (evs : List FireEv) : List String := evs.map (·.session_key)

/-- `st'` extends `st` by a batch of firings: the events are appended, their
session keys are fresh with respect to `st`, pairwise distinct, and exactly
they are pushed onto the session. -/
def StExt (st st' : EngSt) : Prop :=
  ∃ new, st'.2 = st.2 ++ new ∧ st'.1 = (skeys new).reverse ++ st.1 ∧
    (skeys new).Nodup ∧ ∀ e ∈ new, e.session_key ∉ st.1

theorem stExt_refl (st : EngSt) : StExt st st :=
  ⟨[], by simp [skeys]⟩

theorem stExt_trans {a b c : EngSt} (h1 : StExt a b) (h2 : StExt b c) : StExt a c := by
  obtain ⟨n1, he1, hs1, hd1, hf1⟩ := h1
  obtain ⟨n2, he2, hs2, hd2, hf2⟩ := h2
  refine ⟨n1 ++ n2, by simp [he2, he1], ?_, ?_, ?_⟩
  · simp [hs2, hs1, skeys]
  · simp only [skeys, List.map_append, List.nodup_append]
    refine ⟨hd1, hd2, ?_⟩
    intro x hx1 hx2
    simp only [List.mem_map] at hx1 hx2
    obtain ⟨e1, he1m, rfl⟩ := hx1
    obtain ⟨e2, he2m, hkeq⟩ := hx2
    have := hf2 e2 he2m
    rw [hs1] at this
    exact this (by
      rw [hkeq]
      exact List.mem_append_left _ (by
        simp only [List.mem_reverse, skeys, List.mem_map]
        exact ⟨e1, he1m, rfl⟩))
  · intro e he
    rcases List.mem_append.mp he with h | h
    · exact hf1 e h
    · intro hmem
      exact hf2 e h (by rw [hs1]; exact List.mem_append_right _ hmem)

theorem foldl_stExt {α : Type} {f : EngSt → α → EngSt}
    (hf : ∀ st a, StExt st (f st a)) :
    ∀ (l : List α) (st : EngSt), StExt st (l.foldl f st) := by
  intro l
  induction l with
  | nil => intro st; exact stExt_refl st
  | cons a t ih => intro st; exact stExt_trans (hf st a) (ih (f st a))

/-- A single firing extends the state. -/
theorem stExt_fire {st : EngSt} {sk : String} {ev : FireEv} (hk : ev.session_key = sk)
    (h : sk ∉ st.1) : StExt st (sk :: st.1, st.2 ++ [ev]) :=
  ⟨[ev], rfl, by simp [skeys, hk], by simp [skeys], by simpa [hk]⟩

/-- A firing decision implies the key is not yet in the session. -/
theorem addedFires_not_mem {file : String} {test : Pred} {r : EngineRule}
    {old_entries : List (String × Obj)} {session : List String} {kv : String × Obj}
    (h : addedFires file test r old_entries session kv = true) :
    sessionKeyAdded file kv.1 ∉ session := by
  intro hmem
  simp only [addedFires, Bool.and_eq_true, Bool.not_eq_true'] at h
  exact absurd hmem (by simpa using h.1.1.2)

theorem updatedFires_not_mem {file : String} {test : Pred} {rk : String} {r : EngineRule}
    {old_entries : List (String × Obj)} {session : List String} {kv : String × Obj}
    (h : updatedFires file test rk r old_entries session kv = true) :
    sessionKeyUpdated file kv.1 rk (statusKeyStr kv.2) ∉ session := by
  intro hmem
  unfold updatedFires at h
  cases ho : alookup old_entries kv.1 with
  | none => rw [ho] at h; exact absurd h (by simp)
  | some oe =>
    rw [ho] at h
    simp only [Bool.and_eq_true, Bool.not_eq_true'] at h
    exact absurd hmem (by simpa using h.1.2)

theorem addedEntryStep_stExt (file : String) (test : Pred) (rk : String) (r : EngineRule)
    (old_entries : List (String × Obj)) (st : EngSt) (kv : String × Obj) :
    StExt st (addedEntryStep file test rk r old_entries st kv) := by
  unfold addedEntryStep
  by_cases h : addedFires file test r old_entries st.1 kv
  · rw [if_pos h]
    exact stExt_fire rfl (addedFires_not_mem h)
  · rw [if_neg h]
    exact stExt_refl st

theorem updatedEntryStep_stExt (file : String) (test : Pred) (rk : String) (r : EngineRule)
    (old_entries : List (String × Obj)) (st : EngSt) (kv : String × Obj) :
    StExt st (updatedEntryStep file test rk r old_entries st kv) := by
  unfold updatedEntryStep
  by_cases h : updatedFires file test rk r old_entries st.1 kv
  · rw [if_pos h]
    exact stExt_fire rfl (updatedFires_not_mem h)
  · rw [if_neg h]
    exact stExt_refl st

theorem procAdded_stExt (file : String) (t : Option Pred) (rules : List (String × EngineRule))
    (old_entries new_entries : List (String × Obj)) (st : EngSt) :
    StExt st (procAdded file t rules old_entries new_entries st) := by
  cases t with
  | none => exact stExt_refl st
  | some test =>
    show StExt st
      (rules.foldl
        (fun st rkr => new_entries.foldl (addedEntryStep file test rkr.1 rkr.2 old_entries) st)
        st)
    exact foldl_stExt
      (fun st1 rkr =>
        foldl_stExt (addedEntryStep_stExt file test rkr.1 rkr.2 old_entries) new_entries st1)
      rules st

theorem procUpdated_stExt (file : String) (t : Option Pred) (rules : List (String × EngineRule))
    (old_entries new_entries : List (String × Obj)) (st : EngSt) :
    StExt st (procUpdated file t rules old_entries new_entries st) := by
  cases t with
  | none => exact stExt_refl st
  | some test =>
    unfold procUpdated
    refine foldl_stExt (fun st1 rkr => ?_) rules st
    exact foldl_stExt
      (fun st2 kv => updatedEntryStep_stExt file test rkr.1 rkr.2 old_entries st2 kv)
      new_entries st1

/-! ### Association-list lemmas -/

theorem olookup_oset_self (e : Obj) (k : String) (v : J) :
    olookup (oset e k v) k = some v := by
  induction e with
  | nil => simp [oset, olookup]
  | cons kv rest ih =>
    by_cases h : kv.1 = k
    · simp [oset, olookup, h]
    · simp [oset, olookup, h, ih]

theorem olookup_oset_ne (e : Obj) {k k2 : String} (h : k2 ≠ k) (v : J) :
    olookup (oset e k2 v) k = olookup e k := by
  induction e with
  | nil => simp [oset, olookup, h]
  | cons kv rest ih =>
    by_cases h2 : kv.1 = k2
    · simp [oset, olookup, h2, h, Ne.symm h]
    · by_cases h3 : kv.1 = k
      · simp [oset, olookup, h2, h3, Ne.symm h]
      · simp [oset, olookup, h2, h3, ih]

theorem olookup_oerase_ne (e : Obj) {k k2 : String} (h : k2 ≠ k) :
    olookup (oerase e k2) k = olookup e k := by
  induction e with
  | nil => simp [oerase]
  | cons kv rest ih =>
    by_cases h2 : kv.1 = k2
    · have h3 : kv.1 ≠ k := by rw [h2]; exact h
      simp [oerase, olookup, h2, h3, h, ih]
    · by_cases h3 : kv.1 = k
      · simp [oerase, olookup, h2, h3, Ne.symm h, ih]
      · simp [oerase, olookup, h2, h3, ih]

theorem olookup_oerase_self (e : Obj) (k : String) : olookup (oerase e k) k = none := by
  induction e with
  | nil => rfl
  | cons kv rest ih =>
    by_cases h : kv.1 = k
    · simp [oerase, h, ih]
    · simp [oerase, olookup, h, ih]

theorem alookup_aset_self {α : Type} (l : List (String × α)) (k : String) (v : α) :
    alookup (aset l k v) k = some v := by
  induction l with
  | nil => simp [aset, alookup]
  | cons kv rest ih =>
    by_cases h : kv.1 = k
    · simp [aset, alookup, h]
    · simp [aset, alookup, h, ih]

theorem alookup_aset_ne {α : Type} (l : List (String × α)) {k k2 : String}
    (h : k2 ≠ k) (v : α) :
    alookup (aset l k2 v) k = alookup l k := by
  induction l with
  | nil => simp [aset, alookup, h]
  | cons kv rest ih =>
    by_cases h2 : kv.1 = k2
    · simp [aset, alookup, h2, h, Ne.symm h]
    · by_cases h3 : kv.1 = k
      · simp [aset, alookup, h2, h3, Ne.symm h]
      · simp [aset, alookup, h2, h3, ih]

theorem olookup_foldl_oset_ne (extras : Obj) (e : Obj) (k : String)
    (h : ∀ kv ∈ extras, kv.1 ≠ k) :
    olookup (extras.foldl (fun e kv => oset e kv.1 kv.2) e) k = olookup e k := by
  induction extras generalizing e with
  | nil => rfl
  | cons kv rest ih =>
    have := ih (oset e kv.1 kv.2) (fun kv2 hm => h kv2 (List.mem_cons_of_mem kv hm))
    simp only [List.foldl_cons, this]
    exact olookup_oset_ne e (h kv (List.mem_cons_self kv rest)) kv.2

/-! ### Status-field lemmas -/

theorem statusIn_chars {e : Obj} {l : List String} (h : statusIn e l = true) :
    ∃ s, olookup e "status" = some (J.str s) ∧ s ∈ l := by
  unfold statusIn at h
  cases ho : olookup e "status" with
  | none => rw [ho] at h; cases h
  | some v =>
    rw [ho] at h
    cases v with
    | str s => exact ⟨s, rfl, by simpa using h⟩
    | num n => cases h
    | bool b => cases h
    | null => cases h
    | arr xs => cases h
    | obj kvs => cases h

theorem statusIs_perm_false {e : Obj}
    (h : statusIn e ["failed", "timeout_failed"] = true) :
    statusIs e "permanently_failed" = false := by
  obtain ⟨s, hs, hm⟩ := statusIn_chars h
  unfold statusIs statusIn
  rw [hs]
  rcases List.mem_cons.mp hm with h1 | h1
  · subst h1; decide
  · rcases List.mem_cons.mp h1 with h2 | h2
    · subst h2; decide
    · cases h2

/-! ### C2: status transitions and their timestamps -/

/-- C2 (counterexample): `process_queue_entry_with_lock` marks a `queued`
entry `processing` — a genuine status change — writing `updated_at` but NOT
`status_changed_at`, contradicting the claim that every such transition
additionally sets `status_changed_at` iff the status differs. -/
theorem c2_counterexample :
    (mark_processing [("e1", [("status", J.str "queued")])] "e1" 5).2 = true ∧
    alookup (mark_processing [("e1", [("status", J.str "queued")])] "e1" 5).1 "e1" =
      some [("status", J.str "processing"), ("updated_at", J.num 5)] ∧
    olookup [("status", J.str "processing"), ("updated_at", J.num 5)] "status_changed_at" =
      none ∧
    statusIs [("status", J.str "queued")] "processing" = false :=
  ⟨rfl, rfl, rfl, rfl⟩

/-- C2 (amended): every status transition stamps `updated_at`, but
`status_changed_at` is maintained only by `atomic_update_entry_status` (the
failed/timeout-failed paths); the direct `processing`/`processed` writes of
`process_queue_entry_with_lock` and the retry path's re-queueing leave
`status_changed_at` untouched even though the status changes. -/
theorem c2_transition_timestamps :
    (∀ (entries : List (String × Obj)) (key ns : String) (now : Int) (extras entry : Obj),
      alookup entries key = some entry →
      (∀ kv ∈ extras, kv.1 ≠ "status_changed_at" ∧ kv.1 ≠ "updated_at") →
      (atomic_update_entry_status entries key ns now extras).2 = true ∧
      ∃ e', alookup (atomic_update_entry_status entries key ns now extras).1 key = some e' ∧
        olookup e' "updated_at" = some (.num now) ∧
        (statusIs entry ns = false → olookup e' "status_changed_at" = some (.num now)) ∧
        (statusIs entry ns = true →
          olookup e' "status_changed_at" = olookup entry "status_changed_at")) ∧
    (∀ (entries : List (String × Obj)) (key : String) (now : Int) (entry : Obj),
      alookup entries key = some entry →
      statusIn entry ["processing", "processed", "failed", "timeout_failed"] = false →
      ∃ e', alookup (mark_processing entries key now).1 key = some e' ∧
        olookup e' "status" = some (.str "processing") ∧
        olookup e' "updated_at" = some (.num now) ∧
        olookup e' "status_changed_at" = olookup entry "status_changed_at") ∧
    (∀ (entries : List (String × Obj)) (key : String) (now : Int) (entry : Obj),
      alookup entries key = some entry →
      statusIs entry "processing" = true →
      ∃ e', alookup (promote_processed entries key now) key = some e' ∧
        olookup e' "status" = some (.str "processed") ∧
        olookup e' "updated_at" = some (.num now) ∧
        olookup e' "status_changed_at" = olookup entry "status_changed_at") ∧
    (∀ (max_retries base now : Int) (entry : Obj),
      statusIn entry ["failed", "timeout_failed"] = true →
      retry_count_of entry < max_retries →
      retryEligible now entry = true →
      olookup (retry_entry max_retries base now entry).1 "status" = some (.str "queued") ∧
      olookup (retry_entry max_retries base now entry).1 "updated_at" = some (.num now) ∧
      olookup (retry_entry max_retries base now entry).1 "status_changed_at" =
        olookup entry "status_changed_at") := by
  refine ⟨?_, ?_, ?_, ?_⟩
  · intro entries key ns now extras entry hfind hex
    simp only [atomic_update_entry_status, hfind]
    refine ⟨trivial, _, alookup_aset_self _ _ _, ?_, ?_, ?_⟩
    · rw [olookup_foldl_oset_ne _ _ _ (fun kv hm => (hex kv hm).2)]
      by_cases hs : statusIs entry ns
      · simp only [hs, if_true]
        exact olookup_oset_self _ _ _
      · simp only [hs, if_false, Bool.false_eq_true]
        rw [olookup_oset_ne _ (by decide) _]
        exact olookup_oset_self _ _ _
    · intro hs
      rw [olookup_foldl_oset_ne _ _ _ (fun kv hm => (hex kv hm).1)]
      simp only [hs, if_false, Bool.false_eq_true]
      exact olookup_oset_self _ _ _
    · intro hs
      rw [olookup_foldl_oset_ne _ _ _ (fun kv hm => (hex kv hm).1)]
      simp only [hs, if_true]
      rw [olookup_oset_ne _ (by decide) _, olookup_oset_ne _ (by decide) _]
  · intro entries key now entry hfind hst
    simp only [mark_processing, hfind, hst, if_false, Bool.false_eq_true]
    refine ⟨_, alookup_aset_self _ _ _, ?_, olookup_oset_self _ _ _, ?_⟩
    · rw [olookup_oset_ne _ (by decide) _]
      exact olookup_oset_self _ _ _
    · rw [olookup_oset_ne _ (by decide) _, olookup_oset_ne _ (by decide) _]
  · intro entries key now entry hfind hst
    simp only [promote_processed, hfind, hst, if_true]
    refine ⟨_, alookup_aset_self _ _ _, ?_, olookup_oset_self _ _ _, ?_⟩
    · rw [olookup_oset_ne _ (by decide) _]
      exact olookup_oset_self _ _ _
    · rw [olookup_oset_ne _ (by decide) _, olookup_oset_ne _ (by decide) _]
  · intro maxr base now entry hst hrc helig
    simp only [retry_entry, hst, Bool.not_true, if_false, Bool.false_eq_true,
      not_le.mpr hrc, helig, if_true]
    cases herr : olookup (oset (oset (oset (oset (oset entry "status" (J.str "queued"))
        "retry_count" (J.num (retry_count_of entry + 1))) "last_retry" (J.num now))
        "next_retry" (J.num (now + base * 3 ^ (retry_count_of entry).toNat)))
        "updated_at" (J.num now)) "error" with
    | none =>
      simp only [herr]
      refine ⟨?_, olookup_oset_self _ _ _, ?_⟩
      · rw [olookup_oset_ne _ (by decide) _, olookup_oset_ne _ (by decide) _,
          olookup_oset_ne _ (by decide) _, olookup_oset_ne _ (by decide) _]
        exact olookup_oset_self _ _ _
      · rw [olookup_oset_ne _ (by decide) _, olookup_oset_ne _ (by decide) _,
          olookup_oset_ne _ (by decide) _, olookup_oset_ne _ (by decide) _,
          olookup_oset_ne _ (by decide) _]
    | some err =>
      simp only [herr]
      refine ⟨?_, ?_, ?_⟩
      · rw [olookup_oerase_ne _ (by decide), olookup_oset_ne _ (by decide) _,
          olookup_oset_ne _ (by decide) _, olookup_oset_ne _ (by decide) _,
          olookup_oset_ne _ (by decide) _, olookup_oset_ne _ (by decide) _]
        exact olookup_oset_self _ _ _
      · rw [olookup_oerase_ne _ (by decide), olookup_oset_ne _ (by decide) _]
        exact olookup_oset_self _ _ _
      · rw [olookup_oerase_ne _ (by decide), olookup_oset_ne _ (by decide) _,
          olookup_oset_ne _ (by decide) _, olookup_oset_ne _ (by decide) _,
          olookup_oset_ne _ (by decide) _, olookup_oset_ne _ (by decide) _,
          olookup_oset_ne _ (by decide) _]

/-- Witness for the amended C2 at concrete inputs. -/
theorem c2_transition_timestamps_witness :
    ∃ e', alookup (mark_processing [("e1", [("status", J.str "queued")])] "e1" 7).1 "e1" =
        some e' ∧
      olookup e' "status" = some (.str "processing") ∧
      olookup e' "updated_at" = some (.num 7) ∧
      olookup e' "status_changed_at" = olookup [("status", J.str "queued")] "status_changed_at" :=
  c2_transition_timestamps.2.1 [("e1", [("status", J.str "queued")])] "e1" 7
    [("status", J.str "queued")] rfl rfl

/-! ### C3: retry with exponential backoff -/

/-- C3: one `retry_failed_entries` pass treats a failed/timeout-failed entry
in exactly one of three ways — promotion to `permanently_failed` when the
retry budget is exhausted, no change while `now` is before `next_retry`, or a
re-queue that bumps `retry_count`, stamps `last_retry`/`updated_at`, sets
`next_retry = now + base * 3 ^ retry_count` (the pre-increment count, in
minutes) and moves `error` to `previous_error`; consequently `retry_count`
never exceeds `max_retries` and the `max_retries + 1`-st eligible pass
permanently fails the entry. -/
theorem c3_retry_backoff (max_retries base now : Int) (entry : Obj)
    (hst : statusIn entry ["failed", "timeout_failed"] = true) :
    (retry_count_of entry ≥ max_retries →
      (retry_entry max_retries base now entry).2 = .permanentlyFailed ∧
      olookup (retry_entry max_retries base now entry).1 "status" =
        some (.str "permanently_failed") ∧
      olookup (retry_entry max_retries base now entry).1 "updated_at" = some (.num now) ∧
      retry_count_of (retry_entry max_retries base now entry).1 = retry_count_of entry) ∧
    (retry_count_of entry < max_retries → retryEligible now entry = false →
      retry_entry max_retries base now entry = (entry, .notYet)) ∧
    (retry_count_of entry < max_retries → retryEligible now entry = true →
      (retry_entry max_retries base now entry).2 = .retried ∧
      olookup (retry_entry max_retries base now entry).1 "status" = some (.str "queued") ∧
      retry_count_of (retry_entry max_retries base now entry).1 =
        retry_count_of entry + 1 ∧
      olookup (retry_entry max_retries base now entry).1 "last_retry" = some (.num now) ∧
      olookup (retry_entry max_retries base now entry).1 "next_retry" =
        some (.num (now + base * 3 ^ (retry_count_of entry).toNat)) ∧
      olookup (retry_entry max_retries base now entry).1 "updated_at" = some (.num now) ∧
      olookup (retry_entry max_retries base now entry).1 "error" = none ∧
      (∀ err, olookup entry "error" = some err →
        olookup (retry_entry max_retries base now entry).1 "previous_error" = some err)) ∧
    (retry_count_of entry ≤ max_retries →
      retry_count_of (retry_entry max_retries base now entry).1 ≤ max_retries) ∧
    (retry_count_of entry = max_retries →
      (retry_entry max_retries base now entry).2 = .permanentlyFailed) := by
  have hperm := statusIs_perm_false hst
  have herrchase : ∀ k : String, k ≠ "status" → k ≠ "retry_count" → k ≠ "last_retry" →
      k ≠ "next_retry" → k ≠ "updated_at" →
      olookup (oset (oset (oset (oset (oset entry "status" (J.str "queued"))
        "retry_count" (J.num (retry_count_of entry + 1))) "last_retry" (J.num now))
        "next_retry" (J.num (now + base * 3 ^ (retry_count_of entry).toNat)))
        "updated_at" (J.num now)) k = olookup entry k := by
    intro k h1 h2 h3 h4 h5
    rw [olookup_oset_ne _ (Ne.symm h5) _, olookup_oset_ne _ (Ne.symm h4) _,
      olookup_oset_ne _ (Ne.symm h3) _, olookup_oset_ne _ (Ne.symm h2) _,
      olookup_oset_ne _ (Ne.symm h1) _]
  refine ⟨?_, ?_, ?_, ?_, ?_⟩
  · intro hge
    simp only [retry_entry, hst, Bool.not_true, if_false, Bool.false_eq_true, hge, if_true,
      hperm]
    refine ⟨trivial, ?_, olookup_oset_self _ _ _, ?_⟩
    · rw [olookup_oset_ne _ (by decide) _]
      exact olookup_oset_self _ _ _
    · unfold retry_count_of
      rw [olookup_oset_ne _ (by decide) _, olookup_oset_ne _ (by decide) _]
  · intro hlt helig
    simp only [retry_entry, hst, Bool.not_true, if_false, Bool.false_eq_true,
      not_le.mpr hlt, helig]
  · intro hlt helig
    simp only [retry_entry, hst, Bool.not_true, if_false, Bool.false_eq_true,
      not_le.mpr hlt, helig, if_true]
    cases herr : olookup (oset (oset (oset (oset (oset entry "status" (J.str "queued"))
        "retry_count" (J.num (retry_count_of entry + 1))) "last_retry" (J.num now))
        "next_retry" (J.num (now + base * 3 ^ (retry_count_of entry).toNat)))
        "updated_at" (J.num now)) "error" with
    | none =>
      simp only [herr]
      refine ⟨trivial, ?_, ?_, ?_, ?_, olookup_oset_self _ _ _, trivial, ?_⟩
      · rw [olookup_oset_ne _ (by decide) _, olookup_oset_ne _ (by decide) _,
          olookup_oset_ne _ (by decide) _, olookup_oset_ne _ (by decide) _]
        exact olookup_oset_self _ _ _
      · unfold retry_count_of
        rw [olookup_oset_ne _ (by decide) _, olookup_oset_ne _ (by decide) _,
          olookup_oset_ne _ (by decide) _, olookup_oset_self _ _ _]
      · rw [olookup_oset_ne _ (by decide) _, olookup_oset_ne _ (by decide) _]
        exact olookup_oset_self _ _ _
      · rw [olookup_oset_ne _ (by decide) _]
        exact olookup_oset_self _ _ _
      · intro err hlook
        exfalso
        rw [herrchase "error" (by decide) (by decide) (by decide) (by decide) (by decide)]
          at herr
        rw [hlook] at herr
        cases herr
    | some err0 =>
      simp only [herr]
      refine ⟨trivial, ?_, ?_, ?_, ?_, ?_, olookup_oerase_self _ _, ?_⟩
      · rw [olookup_oerase_ne _ (by decide), olookup_oset_ne _ (by decide) _,
          olookup_oset_ne _ (by decide) _, olookup_oset_ne _ (by decide) _,
          olookup_oset_ne _ (by decide) _, olookup_oset_ne _ (by decide) _]
        exact olookup_oset_self _ _ _
      · unfold retry_count_of
        rw [olookup_oerase_ne _ (by decide), olookup_oset_ne _ (by decide) _,
          olookup_oset_ne _ (by decide) _, olookup_oset_ne _ (by decide) _,
          olookup_oset_ne _ (by decide) _, olookup_oset_self _ _ _]
      · rw [olookup_oerase_ne _ (by decide), olookup_oset_ne _ (by decide) _,
          olookup_oset_ne _ (by decide) _, olookup_oset_ne _ (by decide) _]
        exact olookup_oset_self _ _ _
      · rw [olookup_oerase_ne _ (by decide), olookup_oset_ne _ (by decide) _,
          olookup_oset_ne _ (by decide) _]
        exact olookup_oset_self _ _ _
      · rw [olookup_oerase_ne _ (by decide), olookup_oset_ne _ (by decide) _]
        exact olookup_oset_self _ _ _
      · intro err hlook
        have h2 : olookup entry "error" = some err0 := by
          rw [herrchase "error" (by decide) (by decide) (by decide) (by decide) (by decide)]
            at herr
          exact herr
        rw [hlook] at h2
        cases h2
        rw [olookup_oerase_ne _ (by decide)]
        exact olookup_oset_self _ _ _
  · intro hle
    by_cases hge : retry_count_of entry ≥ max_retries
    · simp only [retry_entry, hst, Bool.not_true, if_false, Bool.false_eq_true, hge,
        if_true, hperm]
      unfold retry_count_of
      rw [olookup_oset_ne _ (by decide) _, olookup_oset_ne _ (by decide) _]
      exact hle
    · have hlt : retry_count_of entry < max_retries := lt_of_not_ge hge
      by_cases helig : retryEligible now entry = true
      · simp only [retry_entry, hst, Bool.not_true, if_false, Bool.false_eq_true,
          not_le.mpr hlt, helig, if_true]
        cases herr : olookup (oset (oset (oset (oset (oset entry "status" (J.str "queued"))
            "retry_count" (J.num (retry_count_of entry + 1))) "last_retry" (J.num now))
            "next_retry" (J.num (now + base * 3 ^ (retry_count_of entry).toNat)))
            "updated_at" (J.num now)) "error" with
        | none =>
          simp only [herr]
          unfold retry_count_of
          rw [olookup_oset_ne _ (by decide) _, olookup_oset_ne _ (by decide) _,
            olookup_oset_ne _ (by decide) _, olookup_oset_self _ _ _]
          show retry_count_of entry + 1 ≤ max_retries
          omega
        | some err0 =>
          simp only [herr]
          unfold retry_count_of
          rw [olookup_oerase_ne _ (by decide), olookup_oset_ne _ (by decide) _,
            olookup_oset_ne _ (by decide) _, olookup_oset_ne _ (by decide) _,
            olookup_oset_ne _ (by decide) _, olookup_oset_self _ _ _]
          show retry_count_of entry + 1 ≤ max_retries
          omega
      · have helig2 : retryEligible now entry = false := by
          cases h2 : retryEligible now entry
          · rfl
          · exact absurd h2 helig
        simp only [retry_entry, hst, Bool.not_true, if_false, Bool.false_eq_true,
          not_le.mpr hlt, helig2]
        exact hle
  · intro heq
    have hge : retry_count_of entry ≥ max_retries := le_of_eq heq.symm
    simp only [retry_entry, hst, Bool.not_true, if_false, Bool.false_eq_true, hge,
      if_true, hperm]

/-- Witness for C3 on the first eligible retry of a fresh failed entry. -/
theorem c3_retry_backoff_witness :
    statusIn [("status", J.str "failed")] ["failed", "timeout_failed"] = true ∧
    ((retry_entry 3 5 100 [("status", J.str "failed")]).2 = .retried ∧
      olookup (retry_entry 3 5 100 [("status", J.str "failed")]).1 "next_retry" =
        some (.num 105)) :=
  ⟨rfl,
    ((c3_retry_backoff 3 5 100 [("status", J.str "failed")] rfl).2.2.1 (by decide)
      rfl).1,
    by
      have h := ((c3_retry_backoff 3 5 100 [("status", J.str "failed")] rfl).2.2.1
        (by decide) rfl).2.2.2.2.1
      simpa using h⟩

/-! ### C5: timeout precedence -/

/-- C5 (counterexample): via `process_queue_entry_with_lock` the rule-level
timeout (here 60) is always passed into `run_action`, so a leaf action's own
`timeout` field (here 5) is never the one enforced — the claim's per-step >
rule precedence fails for leaf actions on the queue path. -/
theorem c5_counterexample :
    process_queue_effective_timeout (some 60) (some 5) = 60 ∧ (60 : Int) ≠ 5 :=
  ⟨rfl, by decide⟩

/-- C5 (amended): a workflow step's own `timeout` does override the
rule/workflow timeout; but for a leaf action run through
`process_queue_entry_with_lock` the enforced timeout is the rule's
`timeout` (default 30) regardless of the action's own field — the action
field only applies when `run_action` is invoked without a timeout argument
(the engine loop's direct calls), or in the degenerate case of an explicit
rule timeout of `0`. -/
theorem c5_timeout_precedence (s w rt : Int) (a : Option Int) (hrt : rt ≠ 0) :
    step_timeout_of (some s) w = s ∧
    step_timeout_of none w = w ∧
    process_queue_effective_timeout (some rt) a = rt ∧
    process_queue_effective_timeout none a = 30 ∧
    run_action_timeout none a = a.getD 30 ∧
    process_queue_effective_timeout (some 0) a = a.getD 30 := by
  refine ⟨rfl, rfl, ?_, ?_, rfl, ?_⟩
  · simp [process_queue_effective_timeout, rule_timeout_of, run_action_timeout, hrt]
  · rfl
  · rfl

/-- Witness for the amended C5: rule timeout 60 beats action timeout 5 on the
queue path; a step timeout 5 beats workflow timeout 60. -/
theorem c5_timeout_precedence_witness :
    step_timeout_of (some 5) 60 = 5 ∧
    process_queue_effective_timeout (some 60) (some 5) = 60 :=
  ⟨(c5_timeout_precedence 5 60 60 (some 5) (by decide)).1,
    (c5_timeout_precedence 5 60 60 (some 5) (by decide)).2.2.1⟩

/-! ### C1/C10 groundwork: per-poll firing facts -/

/-- All firings of one poll over one file — `entry_added` then
`entry_updated` — carry pairwise-distinct session keys, each fresh with
respect to the incoming session and recorded in the outgoing session, which
also keeps everything it already had. -/
theorem pollFile_facts (file : String) (tA tU : Option Pred)
    (aR uR : List (String × EngineRule)) (olds news : List (String × Obj))
    (session : List String) :
    (skeys ((pollFile file tA tU aR uR olds news session).2.1 ++
      (pollFile file tA tU aR uR olds news session).2.2)).Nodup ∧
    (∀ e ∈ (pollFile file tA tU aR uR olds news session).2.1 ++
        (pollFile file tA tU aR uR olds news session).2.2,
      e.session_key ∉ session ∧
        e.session_key ∈ (pollFile file tA tU aR uR olds news session).1) ∧
    (∀ x ∈ session, x ∈ (pollFile file tA tU aR uR olds news session).1) := by
  obtain ⟨nA, hA2, hA1, hAnd, hAf⟩ := procAdded_stExt file tA aR olds news (session, [])
  obtain ⟨nU, hU2, hU1, hUnd, hUf⟩ :=
    procUpdated_stExt file tU uR olds news
      ((procAdded file tA aR olds news (session, [])).1, [])
  simp only [List.nil_append] at hA2 hU2
  have hsubA : ∀ x ∈ session, x ∈ (procAdded file tA aR olds news (session, [])).1 := by
    intro x hx
    rw [hA1]
    exact List.mem_append_right _ hx
  have hAin : ∀ e ∈ nA, e.session_key ∈ (procAdded file tA aR olds news (session, [])).1 := by
    intro e he
    rw [hA1]
    exact List.mem_append_left _ (by
      simp only [List.mem_reverse, skeys, List.mem_map]
      exact ⟨e, he, rfl⟩)
  simp only [pollFile, hA2, hU2]
  refine ⟨?_, ?_, ?_⟩
  · simp only [skeys, List.map_append, List.nodup_append]
    refine ⟨hAnd, hUnd, ?_⟩
    intro x hx1 hx2
    simp only [skeys, List.mem_map] at hx1 hx2
    obtain ⟨e1, he1, rfl⟩ := hx1
    obtain ⟨e2, he2, hk⟩ := hx2
    exact hUf e2 he2 (hk ▸ hAin e1 he1)
  · intro e he
    rcases List.mem_append.mp he with h | h
    · refine ⟨fun hc => hAf e h hc, ?_⟩
      rw [hU1]
      exact List.mem_append_right _ (hAin e h)
    · refine ⟨fun hc => hUf e h (hsubA _ hc), ?_⟩
      rw [hU1]
      exact List.mem_append_left _ (by
        simp only [List.mem_reverse, skeys, List.mem_map]
        exact ⟨e, h, rfl⟩)
  · intro x hx
    rw [hU1]
    exact List.mem_append_right _ (hsubA x hx)

/-! ### C1: `entry_updated` session deduplication -/

/-- C1: across two consecutive polls of a file — the entries arbitrarily
rewritten in between (in particular `updated_at` may bounce, since it never
enters the key) — no `entry_updated` rule fires twice for the same
`(file, key, rule_key, status)` session key: every firing's key is fresh when
it fires and recorded in the session; and a rule re-arms for an entry whose
new status yields a key not yet in the session (hypotheses `hcond`-`hsess`),
firing exactly once for it. -/
theorem c1_entry_updated_dedup (file : String) (tA tU : Option Pred)
    (aR uR : List (String × EngineRule)) (olds1 news1 olds2 news2 : List (String × Obj))
    (s0 : List String)
    (rk : String) (r : EngineRule) (key : String) (oe ne : Obj) (test : Pred)
    (s1 : List String)
    (hcond : r.cond = none)
    (htest : test key oe ne = true)
    (hstat : statusIn ne ["processing", "failed"] = false)
    (hsess : s1.contains (sessionKeyUpdated file key rk (statusKeyStr ne)) = false) :
    (skeys ((pollFile file tA tU aR uR olds1 news1 s0).2.2 ++
      (pollFile file tA tU aR uR olds2 news2
        (pollFile file tA tU aR uR olds1 news1 s0).1).2.2)).Nodup ∧
    (∀ e ∈ (pollFile file tA tU aR uR olds1 news1 s0).2.2,
      e.session_key ∉ s0 ∧ e.session_key ∈ (pollFile file tA tU aR uR olds1 news1 s0).1) ∧
    (pollFile file none (some test) [] [(rk, r)] [(key, oe)] [(key, ne)] s1).2.2 =
      [⟨rk, key, sessionKeyUpdated file key rk (statusKeyStr ne)⟩] := by
  obtain ⟨hnd1, hmem1, hmono1⟩ := pollFile_facts file tA tU aR uR olds1 news1 s0
  obtain ⟨hnd2, hmem2, hmono2⟩ :=
    pollFile_facts file tA tU aR uR olds2 news2 (pollFile file tA tU aR uR olds1 news1 s0).1
  refine ⟨?_, ?_, ?_⟩
  · simp only [skeys, List.map_append, List.nodup_append] at hnd1 hnd2 ⊢
    refine ⟨hnd1.2.1, hnd2.2.1, ?_⟩
    intro x hx1 hx2
    simp only [List.mem_map] at hx1 hx2
    obtain ⟨e1, he1, rfl⟩ := hx1
    obtain ⟨e2, he2, hk⟩ := hx2
    have h1 := (hmem1 e1 (List.mem_append_right _ he1)).2
    have h2 := (hmem2 e2 (List.mem_append_right _ he2)).1
    exact h2 (hk ▸ h1)
  · intro e he
    exact hmem1 e (List.mem_append_right _ he)
  · have hfire : updatedFires file test rk r [(key, oe)] s1 (key, ne) = true := by
      unfold updatedFires
      simp only [alookup, if_pos rfl]
      simp [hstat, htest, hcond]
      simpa using hsess
    simp only [pollFile, procAdded, procUpdated, List.foldl_cons, List.foldl_nil]
    unfold updatedEntryStep
    rw [if_pos hfire]
    rfl

/-- Witness for C1 at concrete inputs: the dedup facts on a one-rule poll and
the re-arm firing once the status changed. -/
theorem c1_entry_updated_dedup_witness :
    (pollFile "f" none (some (fun _ _ _ => true)) [] [("r1", ⟨none⟩)]
      [("e1", [("status", J.str "queued")])]
      [("e1", [("status", J.str "done")])] []).2.2 =
      [⟨"r1", "e1", sessionKeyUpdated "f" "e1" "r1"
        (statusKeyStr [("status", J.str "done")])⟩] :=
  (c1_entry_updated_dedup "f" none none [] [] [] [] [] [] []
    "r1" ⟨none⟩ "e1" [("status", J.str "queued")] [("status", J.str "done")]
    (fun _ _ _ => true) [] rfl rfl rfl rfl).2.2

/-! ### C10: `entry_added` dedup has no rule component -/

theorem addedEntryStep_id_of_not_passes {file : String} {test : Pred} {rk : String}
    {r : EngineRule} {olds : List (String × Obj)} {st : EngSt} {key : String} {ne : Obj}
    (h : addedPasses test r ((alookup olds key).getD []) key ne = false) :
    addedEntryStep file test rk r olds st (key, ne) = st := by
  have hf : addedFires file test r olds st.1 (key, ne) = false := by
    unfold addedPasses at h
    cases ht : test key ((alookup olds key).getD []) ne
    · simp [addedFires, ht]
    · have hc : (match r.cond with
          | some c => c key ((alookup olds key).getD []) ne
          | none => true) = false := by
        rw [ht] at h
        simpa using h
      simp [addedFires, ht, hc]
  unfold addedEntryStep
  rw [if_neg (by simp [hf])]

theorem addedEntryStep_id_of_in_session {file : String} {test : Pred} {rk : String}
    {r : EngineRule} {olds : List (String × Obj)} {st : EngSt} {key : String} {ne : Obj}
    (h : st.1.contains (sessionKeyAdded file key) = true) :
    addedEntryStep file test rk r olds st (key, ne) = st := by
  have hmem : sessionKeyAdded file key ∈ st.1 := by simpa using h
  have hf : addedFires file test r olds st.1 (key, ne) = false := by
    cases hv : addedFires file test r olds st.1 (key, ne)
    · rfl
    · exact absurd hmem (addedFires_not_mem hv)
  unfold addedEntryStep
  rw [if_neg (by simp [hf])]

theorem addedEntryStep_fires {file : String} {test : Pred} {rk : String}
    {r : EngineRule} {olds : List (String × Obj)} {st : EngSt} {key : String} {ne : Obj}
    (hp : addedPasses test r ((alookup olds key).getD []) key ne = true)
    (hstat : statusIn ne ["processed", "processing", "failed"] = false)
    (hsess : st.1.contains (sessionKeyAdded file key) = false) :
    addedEntryStep file test rk r olds st (key, ne) =
      (sessionKeyAdded file key :: st.1,
        st.2 ++ [⟨rk, key, sessionKeyAdded file key⟩]) := by
  obtain ⟨ht, hc⟩ := Bool.and_eq_true_iff.mp hp
  unfold addedEntryStep
  rw [if_pos (by
    simp [addedFires, hstat, ht, hc]
    simpa using hsess)]

theorem procAdded_single_id (file : String) (testA : Pred)
    (rules : List (String × EngineRule)) (olds : List (String × Obj))
    (key : String) (ne : Obj) (st : EngSt)
    (h : ∀ p ∈ rules, addedPasses testA p.2 ((alookup olds key).getD []) key ne = false) :
    procAdded file (some testA) rules olds [(key, ne)] st = st := by
  induction rules generalizing st with
  | nil => rfl
  | cons p rest ih =>
    show procAdded file (some testA) rest olds [(key, ne)]
      ([(key, ne)].foldl (addedEntryStep file testA p.1 p.2 olds) st) = st
    have hstep : [(key, ne)].foldl (addedEntryStep file testA p.1 p.2 olds) st = st := by
      show addedEntryStep file testA p.1 p.2 olds st (key, ne) = st
      exact addedEntryStep_id_of_not_passes (h p (List.mem_cons_self p rest))
    rw [hstep]
    exact ih st (fun q hq => h q (List.mem_cons_of_mem p hq))

theorem procAdded_single_skip (file : String) (testA : Pred)
    (rules : List (String × EngineRule)) (olds : List (String × Obj))
    (key : String) (ne : Obj) (st : EngSt)
    (hsess : st.1.contains (sessionKeyAdded file key) = true) :
    procAdded file (some testA) rules olds [(key, ne)] st = st := by
  induction rules generalizing st with
  | nil => rfl
  | cons p rest ih =>
    show procAdded file (some testA) rest olds [(key, ne)]
      ([(key, ne)].foldl (addedEntryStep file testA p.1 p.2 olds) st) = st
    have hstep : [(key, ne)].foldl (addedEntryStep file testA p.1 p.2 olds) st = st := by
      show addedEntryStep file testA p.1 p.2 olds st (key, ne) = st
      exact addedEntryStep_id_of_in_session hsess
    rw [hstep]
    exact ih st hsess

theorem procAdded_append (file : String) (t : Option Pred)
    (r1 r2 : List (String × EngineRule)) (olds news : List (String × Obj)) (st : EngSt) :
    procAdded file t (r1 ++ r2) olds news st =
      procAdded file t r2 olds news (procAdded file t r1 olds news st) := by
  cases t with
  | none => rfl
  | some test =>
    show List.foldl _ st (r1 ++ r2) = _
    rw [List.foldl_append]
    rfl

theorem foldl_fireev_pres {α : Type} {P : FireEv → Prop} {f : EngSt → α → EngSt}
    (hf : ∀ st a e, e ∈ (f st a).2 → e ∈ st.2 ∨ P e) :
    ∀ (l : List α) (st : EngSt) (e : FireEv), e ∈ (l.foldl f st).2 → e ∈ st.2 ∨ P e := by
  intro l
  induction l with
  | nil => intro st e he; exact Or.inl he
  | cons a t ih =>
    intro st e he
    rcases ih (f st a) e he with h | h
    · exact hf st a e h
    · exact Or.inr h

/-- Every `entry_added` firing's session key is `file:key:added` — no rule
component. -/
theorem procAdded_shape (file : String) (t : Option Pred)
    (rules : List (String × EngineRule)) (olds news : List (String × Obj)) (st : EngSt) :
    ∀ e ∈ (procAdded file t rules olds news st).2,
      e ∈ st.2 ∨ e.session_key = sessionKeyAdded file e.entry_key := by
  cases t with
  | none => intro e he; exact Or.inl he
  | some test =>
    refine foldl_fireev_pres
      (P := fun e => e.session_key = sessionKeyAdded file e.entry_key)
      (fun st1 rkr e he => ?_) rules st
    refine foldl_fireev_pres
      (P := fun e => e.session_key = sessionKeyAdded file e.entry_key)
      (fun st2 kv e2 he2 => ?_) news st1 e he
    unfold addedEntryStep at he2
    by_cases hf : addedFires file test rkr.2 olds st2.1 kv
    · rw [if_pos hf] at he2
      rcases List.mem_append.mp he2 with h | h
      · exact Or.inl h
      · rw [List.mem_singleton.mp h]
        exact Or.inr rfl
    · rw [if_neg hf] at he2
      exact Or.inl he2

theorem filter_key_le_one {file : String} {l : List FireEv}
    (hnd : (skeys l).Nodup)
    (hsh : ∀ e ∈ l, e.session_key = sessionKeyAdded file e.entry_key) (k : String) :
    (l.filter (fun e => e.entry_key == k)).length ≤ 1 := by
  cases hfl : l.filter (fun e => e.entry_key == k) with
  | nil => simp
  | cons x rest =>
    cases rest with
    | nil => simp
    | cons y rest2 =>
      exfalso
      have hsub : (x :: y :: rest2).Sublist l := hfl ▸ List.filter_sublist l
      have hnd0 : (l.map (fun e => e.session_key)).Nodup := hnd
      have hnd2 : ((x :: y :: rest2).map (fun e => e.session_key)).Nodup :=
        (hsub.map (fun e => e.session_key)).nodup hnd0
      have hx : x ∈ l := hsub.mem (List.mem_cons_self _ _)
      have hy : y ∈ l := hsub.mem (List.mem_cons_of_mem _ (List.mem_cons_self _ _))
      have hxk : x.entry_key = k := by
        have := List.mem_filter.mp (hfl ▸ List.mem_cons_self x (y :: rest2))
        simpa using this.2
      have hyk : y.entry_key = k := by
        have := List.mem_filter.mp
          (hfl ▸ List.mem_cons_of_mem x (List.mem_cons_self y rest2))
        simpa using this.2
      have hkeq : x.session_key = y.session_key := by
        rw [hsh x hx, hsh y hy, hxk, hyk]
      simp only [List.map_cons, List.nodup_cons, List.mem_cons, List.mem_map] at hnd2
      exact hnd2.1 (Or.inl hkeq)

/-- C10: the `entry_added` session key is `(file, key, 'added')` with no rule
component, so within a session at most one `entry_added` rule processes a
given entry — per poll and across consecutive polls — and on a fresh entry
it is exactly the first rule in iteration order whose test and condition
pass, every later rule being skipped by the shared session key. -/
theorem c10_entry_added_single_rule (file : String) (tA tU : Option Pred)
    (aR uR : List (String × EngineRule)) (olds1 news1 olds2 news2 : List (String × Obj))
    (s0 s1 : List String)
    (pre post : List (String × EngineRule)) (rk : String) (r : EngineRule)
    (key : String) (ne : Obj) (testA : Pred)
    (hpre : ∀ p ∈ pre, addedPasses testA p.2 [] key ne = false)
    (hr : addedPasses testA r [] key ne = true)
    (hstat : statusIn ne ["processed", "processing", "failed"] = false)
    (hsess : s1.contains (sessionKeyAdded file key) = false) :
    (∀ k, ((pollFile file tA tU aR uR olds1 news1 s0).2.1.filter
        (fun e => e.entry_key == k)).length ≤ 1) ∧
    (∀ k, (((pollFile file tA tU aR uR olds1 news1 s0).2.1 ++
        (pollFile file tA tU aR uR olds2 news2
          (pollFile file tA tU aR uR olds1 news1 s0).1).2.1).filter
        (fun e => e.entry_key == k)).length ≤ 1) ∧
    (pollFile file (some testA) none (pre ++ (rk, r) :: post) [] [] [(key, ne)] s1).2.1 =
      [⟨rk, key, sessionKeyAdded file key⟩] := by
  obtain ⟨hnd1, hmem1, hmono1⟩ := pollFile_facts file tA tU aR uR olds1 news1 s0
  obtain ⟨hnd2, hmem2, hmono2⟩ :=
    pollFile_facts file tA tU aR uR olds2 news2 (pollFile file tA tU aR uR olds1 news1 s0).1
  have hshape1 : ∀ e ∈ (pollFile file tA tU aR uR olds1 news1 s0).2.1,
      e.session_key = sessionKeyAdded file e.entry_key := by
    intro e he
    rcases procAdded_shape file tA aR olds1 news1 (s0, []) e he with h | h
    · cases h
    · exact h
  have hshape2 : ∀ e ∈ (pollFile file tA tU aR uR olds2 news2
      (pollFile file tA tU aR uR olds1 news1 s0).1).2.1,
      e.session_key = sessionKeyAdded file e.entry_key := by
    intro e he
    rcases procAdded_shape file tA aR olds2 news2
        ((pollFile file tA tU aR uR olds1 news1 s0).1, []) e he with h | h
    · cases h
    · exact h
  have hndL1 : (skeys (pollFile file tA tU aR uR olds1 news1 s0).2.1).Nodup := by
    simp only [skeys, List.map_append, List.nodup_append] at hnd1
    exact hnd1.1
  refine ⟨fun k => filter_key_le_one hndL1 hshape1 k, fun k => ?_, ?_⟩
  · refine @filter_key_le_one file _ ?_ ?_ k
    · simp only [skeys, List.map_append, List.nodup_append] at hnd1 hnd2 ⊢
      refine ⟨hnd1.1, hnd2.1, ?_⟩
      intro x hx1 hx2
      simp only [List.mem_map] at hx1 hx2
      obtain ⟨e1, he1, rfl⟩ := hx1
      obtain ⟨e2, he2, hk⟩ := hx2
      have h1 := (hmem1 e1 (List.mem_append_left _ he1)).2
      have h2 := (hmem2 e2 (List.mem_append_left _ he2)).1
      exact h2 (hk ▸ h1)
    · intro e he
      rcases List.mem_append.mp he with h | h
      · exact hshape1 e h
      · exact hshape2 e h
  · show (procAdded file (some testA) (pre ++ (rk, r) :: post) [] [(key, ne)] (s1, [])).2 =
      [⟨rk, key, sessionKeyAdded file key⟩]
    rw [procAdded_append, procAdded_single_id file testA pre [] key ne (s1, [])
      (fun p hp => hpre p hp)]
    have hstep : procAdded file (some testA) ((rk, r) :: post) [] [(key, ne)] (s1, []) =
        (sessionKeyAdded file key :: s1, [⟨rk, key, sessionKeyAdded file key⟩]) := by
      show procAdded file (some testA) post [] [(key, ne)]
        ([(key, ne)].foldl (addedEntryStep file testA rk r []) (s1, [])) = _
      have hfire : [(key, ne)].foldl (addedEntryStep file testA rk r []) (s1, []) =
          (sessionKeyAdded file key :: s1, [⟨rk, key, sessionKeyAdded file key⟩]) := by
        show addedEntryStep file testA rk r [] (s1, []) (key, ne) = _
        rw [@addedEntryStep_fires file testA rk r [] (s1, []) key ne hr hstat hsess]
        rfl
      rw [hfire]
      exact procAdded_single_skip file testA post [] key ne _ (by simp)
    rw [hstep]

/-- Witness for C10: on a freshly added queued entry, with a first rule whose
condition rejects, the second rule fires and the third is skipped. -/
theorem c10_entry_added_single_rule_witness :
    (pollFile "f" (some (fun _ _ _ => true)) none
      ([("r0", ⟨some (fun _ _ _ => false)⟩)] ++ ("r1", ⟨none⟩) :: [("r2", ⟨none⟩)])
      [] [] [("e1", [("status", J.str "queued")])] []).2.1 =
      [⟨"r1", "e1", sessionKeyAdded "f" "e1"⟩] :=
  (c10_entry_added_single_rule "f" none none [] [] [] [] [] [] [] []
    [("r0", ⟨some (fun _ _ _ => false)⟩)] [("r2", ⟨none⟩)] "r1" ⟨none⟩
    "e1" [("status", J.str "queued")] (fun _ _ _ => true)
    (fun p hp => by rw [List.mem_singleton.mp hp]; rfl) rfl rfl rfl).2.2


theorem isPrefixOf_self (l : List Char) : l.isPrefixOf l = true := by
  induction l with
  | nil => rfl
  | cons c rest ih => simp [List.isPrefixOf, ih]

theorem isPrefixOf_append_self (l t : List Char) : l.isPrefixOf (l ++ t) = true := by
  induction l with
  | nil => simp [List.isPrefixOf]
  | cons c rest ih => simp [List.isPrefixOf, ih]

theorem phScan_free {a : List Char} (h : ∀ c ∈ a, c ≠ lbrace) :
    phScan a none = [] := by
  induction a with
  | nil => rfl
  | cons c rest ih =>
    have hc : c ≠ lbrace := h c (List.mem_cons_self c rest)
    simp only [phScan, if_neg hc]
    exact ih (fun d hd => h d (List.mem_cons_of_mem c hd))

theorem phScan_skip {a : List Char} (rest : List Char) (h : ∀ c ∈ a, c ≠ lbrace) :
    phScan (a ++ rest) none = phScan rest none := by
  induction a with
  | nil => rfl
  | cons c t ih =>
    have hc : c ≠ lbrace := h c (List.mem_cons_self c t)
    simp only [List.cons_append, phScan, if_neg hc]
    exact ih (fun d hd => h d (List.mem_cons_of_mem c hd))

theorem phScan_close {cs : List Char} (h : ∀ c ∈ cs, c ≠ rbrace) :
    ∀ (acc rest : List Char),
      phScan (cs ++ rbrace :: rest) (some acc) =
        if (cs.reverse ++ acc).isEmpty then phScan rest none
        else String.mk (acc.reverse ++ cs) :: phScan rest none := by
  induction cs with
  | nil =>
    intro acc rest
    simp [phScan]
  | cons c t ih =>
    intro acc rest
    have hc : c ≠ rbrace := h c (List.mem_cons_self c t)
    show phScan (c :: (t ++ rbrace :: rest)) (some acc) = _
    simp only [phScan, if_neg hc]
    rw [ih (fun d hd => h d (List.mem_cons_of_mem c hd)) (c :: acc) rest]
    simp [List.append_assoc]

theorem pyFindall_embedded (a b x : String)
    (ha : ∀ c ∈ a.data, c ≠ lbrace) (hb : ∀ c ∈ b.data, c ≠ lbrace)
    (hx2 : ∀ c ∈ x.data, c ≠ rbrace) (hne : x.data ≠ []) :
    pyFindall (a ++ phOf x ++ b) = [x] := by
  unfold pyFindall
  have hdata : (a ++ phOf x ++ b).data =
      a.data ++ (lbrace :: (x.data ++ rbrace :: b.data)) := by
    rw [String.data_append, String.data_append]
    show a.data ++ (lbrace :: x.data ++ [rbrace]) ++ b.data = _
    simp [List.append_assoc]
  rw [hdata, phScan_skip _ ha]
  show phScan (lbrace :: (x.data ++ rbrace :: b.data)) none = [x]
  rw [show phScan (lbrace :: (x.data ++ rbrace :: b.data)) none =
      phScan (x.data ++ rbrace :: b.data) (some []) from by simp [phScan]]
  rw [phScan_close hx2 [] b.data]
  rw [phScan_free hb]
  simp [List.isEmpty_iff, hne]

theorem replace_nomatch {s : List Char} (pat new : List Char)
    (h : ∀ c ∈ s, c ≠ lbrace) :
    ∀ f, pyReplaceFuel (lbrace :: pat) new f s = s := by
  induction s with
  | nil => intro f; cases f <;> rfl
  | cons c rest ih =>
    intro f
    cases f with
    | zero => rfl
    | succ g =>
      have hc : c ≠ lbrace := h c (List.mem_cons_self c rest)
      have hpre : (lbrace :: pat).isPrefixOf (c :: rest) = false := by
        simp [List.isPrefixOf, Ne.symm hc]
      simp [pyReplaceFuel, hpre, ih (fun d hd => h d (List.mem_cons_of_mem c hd)) g]

theorem replace_embedded (pat new b : List Char)
    (hb : ∀ c ∈ b, c ≠ lbrace) :
    ∀ (a : List Char) (f : Nat), (∀ c ∈ a, c ≠ lbrace) → a.length + 1 ≤ f →
      pyReplaceFuel (lbrace :: pat) new f (a ++ (lbrace :: pat) ++ b) =
        a ++ new ++ b := by
  intro a
  induction a with
  | nil =>
    intro f _ hf
    cases f with
    | zero => omega
    | succ g =>
      simp only [List.nil_append]
      have hpre : (lbrace :: pat).isPrefixOf (lbrace :: (pat ++ b)) = true :=
        isPrefixOf_append_self (lbrace :: pat) b
      have hdrop : (lbrace :: (pat ++ b)).drop (lbrace :: pat).length = b := by
        simp
      show pyReplaceFuel (lbrace :: pat) new (g + 1) (lbrace :: (pat ++ b)) = new ++ b
      simp [pyReplaceFuel, hpre, hdrop, replace_nomatch pat new hb g]
  | cons c t ih =>
    intro f hc hf
    cases f with
    | zero => omega
    | succ g =>
      have hcn : c ≠ lbrace := hc c (List.mem_cons_self c t)
      have hih := ih g (fun d hd => hc d (List.mem_cons_of_mem c hd)) (by simpa using hf)
      simp only [List.cons_append, List.append_assoc] at hih ⊢
      simp [pyReplaceFuel, Ne.symm hcn, hih]

theorem isFullPH_phOf {x : String} (hx1 : lbrace ∉ x.data) (hx2 : rbrace ∉ x.data) :
    isFullPH (phOf x) = true := by
  unfold isFullPH phOf
  simp
  refine ⟨?_, ?_, ?_⟩
  · rw [← List.cons_append]
    exact List.getLast?_concat _
  · exact List.count_eq_zero_of_not_mem hx1
  · decide

theorem innerPH_phOf (x : String) : innerPH (phOf x) = x := by
  unfold innerPH phOf
  have h : (((String.mk (lbrace :: x.data ++ [rbrace])).data.drop 1)).dropLast = x.data := by
    show ((x.data ++ [rbrace])).dropLast = x.data
    exact List.dropLast_concat
  rw [h]

theorem isFullPH_false_of_nolb {s : String} (h : lbrace ∉ s.data) : isFullPH s = false := by
  unfold isFullPH
  cases hd : s.data with
  | nil => rfl
  | cons c rest =>
    have hc : c ≠ lbrace := by
      intro he
      exact h (hd ▸ (he ▸ List.mem_cons_self c rest))
    simp [hc]

theorem pyReplaceS_embedded (a b x t : String)
    (ha : ∀ c ∈ a.data, c ≠ lbrace) (hb : ∀ c ∈ b.data, c ≠ lbrace) :
    pyReplaceS (a ++ phOf x ++ b) (phOf x) t = a ++ t ++ b := by
  unfold pyReplaceS
  have hph : (phOf x).data = lbrace :: (x.data ++ [rbrace]) := rfl
  have hdata : (a ++ phOf x ++ b).data =
      a.data ++ (lbrace :: (x.data ++ [rbrace])) ++ b.data := by
    rw [String.data_append, String.data_append, hph]
  rw [hph, hdata]
  have hlen : a.data.length + 1 ≤
      (a.data ++ (lbrace :: (x.data ++ [rbrace])) ++ b.data).length := by
    simp only [List.length_append, List.length_cons]
    omega
  rw [replace_embedded (x.data ++ [rbrace]) t.data b.data hb a.data _ ha hlen]
  show String.mk (a.data ++ t.data ++ b.data) = String.mk ((a ++ t ++ b).data)
  rw [String.data_append, String.data_append]

theorem resolveStr_embedded (ctx : Obj) (a b x : String)
    (ha : ∀ c ∈ a.data, c ≠ lbrace) (hb : ∀ c ∈ b.data, c ≠ lbrace)
    (hx2 : ∀ c ∈ x.data, c ≠ rbrace) (hne : x.data ≠ [])
    (hdot : hasDot x = false) :
    resolveStr ctx (a ++ phOf x ++ b) =
      (match olookup ctx x with
       | none => Except.ok (a ++ phOf x ++ b)
       | some v => Except.ok (a ++ pyStr v ++ b)) := by
  unfold resolveStr
  rw [pyFindall_embedded a b x ha hb hx2 hne]
  show (match subst1 ctx (a ++ phOf x ++ b) x with
    | Except.ok acc2 => substAll ctx [] acc2
    | Except.error e => Except.error e) = _
  unfold subst1
  rw [hdot]
  cases hl : olookup ctx x with
  | none => simp [substAll]
  | some v =>
    simp only [Bool.false_eq_true, if_false]
    rw [pyReplaceS_embedded a b x (pyStr v) ha hb]
    simp [substAll]

theorem resolveStr_full (ctx : Obj) (x : String) (hx2 : ∀ c ∈ x.data, c ≠ rbrace)
    (hne : x.data ≠ []) (hdot : hasDot x = false) :
    resolveStr ctx (phOf x) =
      (match olookup ctx x with
       | none => Except.ok (phOf x)
       | some v => Except.ok (pyStr v)) := by
  have hea : ∀ c ∈ ("" : String).data, c ≠ lbrace := by
    intro c hc
    cases hc
  have h := resolveStr_embedded ctx "" "" x hea hea hx2 hne hdot
  cases hl : olookup ctx x with
  | none =>
    rw [hl] at h
    simpa using h
  | some v =>
    rw [hl] at h
    simpa using h

theorem resolveV_fullPH_miss (ctx : Obj) (k x : String)
    (hx1 : lbrace ∉ x.data) (hx2 : rbrace ∉ x.data) (hne : x.data ≠ [])
    (hdot : hasDot x = false) (hl : olookup ctx x = none) :
    resolveV (J.obj [(k, J.str (phOf x))]) ctx = .ok (J.obj []) := by
  have hx2f : ∀ c ∈ x.data, c ≠ rbrace := fun c hc he => hx2 (he ▸ hc)
  have hstr : resolveV (J.str (phOf x)) ctx = .ok (.str (phOf x)) := by
    show (match resolveStr ctx (phOf x) with
      | .ok r => Except.ok (J.str r)
      | .error e => Except.error e) = _
    rw [resolveStr_full ctx x hx2f hne hdot, hl]
  have hfp : fullPHStep (.str (phOf x)) ctx = none := by
    simp [fullPHStep, isFullPH_phOf hx1 hx2, innerPH_phOf, hdot, ohas, hl]
  have hobj : resolveObjM [(k, J.str (phOf x))] ctx = .ok [] := by
    simp only [resolveObjM, hstr, hfp]
  simp only [resolveV, hobj]

theorem resolveV_fullPH_hit (ctx : Obj) (k x : String) (v : J)
    (hx2 : rbrace ∉ x.data) (hne : x.data ≠ [])
    (hdot : hasDot x = false) (hl : olookup ctx x = some v)
    (hv : lbrace ∉ (pyStr v).data) :
    resolveV (J.obj [(k, J.str (phOf x))]) ctx = .ok (J.obj [(k, J.str (pyStr v))]) := by
  have hx2f : ∀ c ∈ x.data, c ≠ rbrace := fun c hc he => hx2 (he ▸ hc)
  have hstr : resolveV (J.str (phOf x)) ctx = .ok (.str (pyStr v)) := by
    show (match resolveStr ctx (phOf x) with
      | .ok r => Except.ok (J.str r)
      | .error e => Except.error e) = _
    rw [resolveStr_full ctx x hx2f hne hdot, hl]
  have hfp : fullPHStep (.str (pyStr v)) ctx = some (.str (pyStr v)) := by
    simp [fullPHStep, isFullPH_false_of_nolb hv]
  have hobj : resolveObjM [(k, J.str (phOf x))] ctx = .ok [(k, J.str (pyStr v))] := by
    simp only [resolveObjM, hstr, hfp]
  simp only [resolveV, hobj]

theorem resolveArrM_eq_mapM (ctx : Obj) :
    ∀ xs : List J, resolveArrM xs ctx = xs.mapM (fun v => resolveV v ctx) := by
  intro xs
  induction xs with
  | nil => rfl
  | cons x rest ih =>
    rw [List.mapM_cons]
    simp only [resolveArrM, ih]
    cases resolveV x ctx with
    | error e => rfl
    | ok y =>
      cases rest.mapM (fun v => resolveV v ctx) with
      | error e => rfl
      | ok ys => rfl

/-! ### C4: context-resolver placeholder semantics -/

/-- C4 (counterexample): the key `"k"` holds the full placeholder
`"\x7bname[0]\x7d"`, whose inner expression `name[0]` IS resolvable per the
claim's grammar (a bracketed sequence index under a name — `strWalk` returns
`"x"`), yet `resolve_context_values` drops the key: the undotted bracket form
is looked up verbatim as a dict key and never parsed. Also, a resolvable
plain-name full placeholder is replaced by `str(value)` (`"5"`), not by the
looked-up value itself (`5`). -/
theorem c4_counterexample :
    resolve_context_values (J.obj [("k", J.str "\x7bname[0]\x7d")])
        [("name", J.arr [J.str "x"])] = .ok (J.obj [])
    ∧ strWalk (J.obj [("name", J.arr [J.str "x"])]) ["name[0]"] = .ok (J.str "x")
    ∧ resolve_context_values (J.obj [("v", J.str "\x7bn\x7d")]) [("n", J.num 5)]
        = .ok (J.obj [("v", J.str "5")]) :=
  ⟨rfl, rfl, rfl⟩

/-- C4: amended resolver semantics. Non-string scalars pass through unchanged;
arrays are resolved element-wise (`resolveArrM` is `mapM` of the resolver);
a dict value that is a single full placeholder over a plain (undotted,
brace-free) name is dropped exactly when the name is not a context key, and
kept as the `str` of the looked-up value when it is; a placeholder embedded
in a longer string is substituted with `str(value)` on a context hit and
left literally in place on a miss. -/
theorem c4_resolver_behavior :
    (∀ (ctx : Obj) (n : Int), resolve_context_values (J.num n) ctx = .ok (J.num n))
    ∧ (∀ (ctx : Obj) (b : Bool), resolve_context_values (J.bool b) ctx = .ok (J.bool b))
    ∧ (∀ ctx : Obj, resolve_context_values J.null ctx = .ok J.null)
    ∧ (∀ (ctx : Obj) (xs : List J), resolveArrM xs ctx = xs.mapM (fun v => resolveV v ctx))
    ∧ (∀ (ctx : Obj) (k x : String), lbrace ∉ x.data → rbrace ∉ x.data →
        x.data ≠ [] → hasDot x = false → olookup ctx x = none →
        resolve_context_values (J.obj [(k, J.str (phOf x))]) ctx = .ok (J.obj []))
    ∧ (∀ (ctx : Obj) (k x : String) (v : J), rbrace ∉ x.data →
        x.data ≠ [] → hasDot x = false → olookup ctx x = some v →
        lbrace ∉ (pyStr v).data →
        resolve_context_values (J.obj [(k, J.str (phOf x))]) ctx
          = .ok (J.obj [(k, J.str (pyStr v))]))
    ∧ (∀ (ctx : Obj) (a b x : String), (∀ c ∈ a.data, c ≠ lbrace) →
        (∀ c ∈ b.data, c ≠ lbrace) → (∀ c ∈ x.data, c ≠ rbrace) →
        x.data ≠ [] → hasDot x = false →
        resolve_context_values (J.str (a ++ phOf x ++ b)) ctx =
          (match olookup ctx x with
           | none => Except.ok (J.str (a ++ phOf x ++ b))
           | some v => Except.ok (J.str (a ++ pyStr v ++ b)))) := by
  refine ⟨fun ctx n => rfl, fun ctx b => rfl, fun ctx => rfl,
    fun ctx xs => resolveArrM_eq_mapM ctx xs,
    fun ctx k x h1 h2 h3 h4 h5 => resolveV_fullPH_miss ctx k x h1 h2 h3 h4 h5,
    fun ctx k x v h1 h2 h3 h4 h5 => resolveV_fullPH_hit ctx k x v h1 h2 h3 h4 h5,
    fun ctx a b x ha hb hx2 hne hdot => ?_⟩
  show (match resolveStr ctx (a ++ phOf x ++ b) with
    | .ok r => Except.ok (J.str r)
    | .error e => Except.error e) = _
  rw [resolveStr_embedded ctx a b x ha hb hx2 hne hdot]
  cases olookup ctx x with
  | none => rfl
  | some v => rfl

/-- C4 witness: the amended theorem instantiated — a missing plain-name full
placeholder is dropped, a present one becomes `"5"`, and an embedded
placeholder is substituted inside the surrounding text. -/
theorem c4_resolver_behavior_witness :
    resolve_context_values (J.obj [("k", J.str (phOf "miss"))]) [("n", J.num 5)]
        = .ok (J.obj [])
    ∧ resolve_context_values (J.obj [("v", J.str (phOf "n"))]) [("n", J.num 5)]
        = .ok (J.obj [("v", J.str "5")])
    ∧ resolve_context_values (J.str ("a" ++ phOf "n" ++ "b")) [("n", J.num 5)]
        = .ok (J.str "a5b") := by
  refine ⟨c4_resolver_behavior.2.2.2.2.1 [("n", J.num 5)] "k" "miss"
      (by decide) (by decide) (by decide) rfl rfl, ?_, ?_⟩
  · exact c4_resolver_behavior.2.2.2.2.2.1 [("n", J.num 5)] "v" "n" (J.num 5)
      (by decide) (by decide) rfl rfl (by decide)
  · exact c4_resolver_behavior.2.2.2.2.2.2 [("n", J.num 5)] "a" "b" "n"
      (by decide) (by decide) (by decide) (by decide) rfl

theorem runSubSteps_plain (inv : Invoker) (t : Int) (item_ctx : Obj) (lastOut : Option J) :
    runSubSteps inv [] t [plainSubStep] item_ctx lastOut =
      (match inv ⟨"t", "a", J.obj [], t⟩ with
       | InvokeResult.timeout =>
           ((Sum.inl (foreachTimeoutObj t) : J ⊕ Option J),
            [(⟨"t", "a", J.obj [], t⟩ : ToolCall)])
       | InvokeResult.output parsed raw =>
           ((Sum.inr (some (parseOutput parsed raw)) : J ⊕ Option J),
            [(⟨"t", "a", J.obj [], t⟩ : ToolCall)])) := by
  show (match inv ⟨"t", "a", J.obj [], t⟩ with
       | InvokeResult.timeout =>
           ((Sum.inl (foreachTimeoutObj t) : J ⊕ Option J),
            [(⟨"t", "a", J.obj [], t⟩ : ToolCall)])
       | InvokeResult.output parsed raw =>
           ((Sum.inr (some (parseOutput parsed raw)) : J ⊕ Option J),
            [(⟨"t", "a", J.obj [], t⟩ : ToolCall)])) = _
  rfl

theorem runItems_plain_exact (inv : Invoker) (t : Int) (parsed : Option J) (raw : String)
    (hc : inv ⟨"t", "a", J.obj [], t⟩ = InvokeResult.output parsed raw) (step_ctx : Obj) :
    ∀ (items : List J) (idx : Nat) (lastOut : Option J),
      runItems inv [] t [plainSubStep] step_ctx items idx lastOut =
        (Sum.inr (items.map (fun _ => parseOutput parsed raw)),
         items.map (fun _ => (⟨"t", "a", J.obj [], t⟩ : ToolCall))) := by
  intro items
  induction items with
  | nil => intro idx lastOut; rfl
  | cons it rest ih =>
    intro idx lastOut
    have hsub : runSubSteps inv [] t [plainSubStep]
        (oset (oset step_ctx "item" it) "index" (J.num (Int.ofNat idx))) lastOut =
        (Sum.inr (some (parseOutput parsed raw)), [(⟨"t", "a", J.obj [], t⟩ : ToolCall)]) := by
      rw [runSubSteps_plain, hc]
    simp only [runItems, hsub, ih (idx + 1) (some (parseOutput parsed raw))]
    simp

theorem runStep_items (inv : Invoker) (t : Int) (items : List J) :
    runStep inv [] 0 t [("items", J.arr items)] (J.obj []) itemsForeachStep =
      (match runItems inv [] t [plainSubStep]
          (oset [("items", J.arr items)] "prev" (J.obj [])) items 0 none with
       | (Sum.inl term, tr) => ((Sum.inl term : J ⊕ J), tr)
       | (Sum.inr results, tr) =>
         ((Sum.inr (J.obj [("results", J.arr results),
            ("processed_count", J.num (Int.ofNat results.length))]) : J ⊕ J), tr)) := by
  show (match runItems inv [] t [plainSubStep]
          (oset [("items", J.arr items)] "prev" (J.obj [])) items 0 none with
       | (Sum.inl term, tr) => ((Sum.inl term : J ⊕ J), tr)
       | (Sum.inr results, tr) =>
         ((Sum.inr (J.obj [("results", J.arr results),
            ("processed_count", J.num (Int.ofNat results.length))]) : J ⊕ J), tr)) = _
  rfl

/-! ### C6: foreach step semantics -/

/-- C6 (counterexample): every sub-step invocation returns a parsed output
with `status = "error"`, yet the foreach loop neither stops at the first
error nor fails the workflow: both items are processed (two invocations in
the trace) and the step reports success-shaped
`\x7bresults: [err, err], processed_count: 2\x7d` — the sub-step output's
`status` field is never inspected inside the foreach loop. -/
theorem c6_counterexample :
    run_workflow_steps
        (fun _ => InvokeResult.output (some (J.obj [("status", J.str "error")])) "")
        [] [itemsForeachStep] [("items", J.arr [J.num 1, J.num 2])] 30
      = (J.obj [("results", J.arr [J.obj [("status", J.str "error")],
            J.obj [("status", J.str "error")]]),
          ("processed_count", J.num 2)],
         [⟨"t", "a", J.obj [], 30⟩, ⟨"t", "a", J.obj [], 30⟩]) := rfl

/-- C6: amended foreach semantics over the workflow model. An empty array
yields `\x7bresults: [], processed_count: 0\x7d` with no invocation; a
non-timeout invoker processes EVERY item regardless of each sub-output's
`status` (the result collects all parsed outputs and counts all items — an
`error` status does not short-circuit); only a wall-clock
`subprocess.TimeoutExpired` terminates the workflow immediately, with the
foreach timeout object and exactly the one invocation made. -/
theorem c6_foreach_behavior :
    (∀ (inv : Invoker) (t : Int),
        run_workflow_steps inv [] [itemsForeachStep] [("items", J.arr [])] t
          = (J.obj [("results", J.arr []), ("processed_count", J.num 0)], []))
    ∧ (∀ (inv : Invoker) (t : Int) (items : List J) (parsed : Option J) (raw : String),
        inv ⟨"t", "a", J.obj [], t⟩ = InvokeResult.output parsed raw →
        run_workflow_steps inv [] [itemsForeachStep] [("items", J.arr items)] t
          = (J.obj [("results", J.arr (items.map (fun _ => parseOutput parsed raw))),
              ("processed_count", J.num (Int.ofNat items.length))],
             items.map (fun _ => (⟨"t", "a", J.obj [], t⟩ : ToolCall))))
    ∧ (∀ (inv : Invoker) (t : Int) (it : J) (rest : List J),
        inv ⟨"t", "a", J.obj [], t⟩ = InvokeResult.timeout →
        run_workflow_steps inv [] [itemsForeachStep] [("items", J.arr (it :: rest))] t
          = (foreachTimeoutObj t, [⟨"t", "a", J.obj [], t⟩])) := by
  refine ⟨fun inv t => rfl, ?_, ?_⟩
  · intro inv t items parsed raw hc
    have hstep : runStep inv [] 0 t [("items", J.arr items)] (J.obj []) itemsForeachStep
        = ((Sum.inr (J.obj [("results",
              J.arr (items.map (fun _ => parseOutput parsed raw))),
            ("processed_count",
              J.num (Int.ofNat (items.map (fun _ => parseOutput parsed raw)).length))]) : J ⊕ J),
           items.map (fun _ => (⟨"t", "a", J.obj [], t⟩ : ToolCall))) := by
      rw [runStep_items, runItems_plain_exact inv t parsed raw hc]
    show (match runStep inv [] 0 t [("items", J.arr items)] (J.obj []) itemsForeachStep with
      | (Sum.inl term, tr) => (term, tr)
      | (Sum.inr p, tr) => (p, tr ++ [])) = _
    rw [hstep]
    simp
  · intro inv t it rest hto
    have hsub : runSubSteps inv [] t [plainSubStep]
        (oset (oset (oset [("items", J.arr (it :: rest))] "prev" (J.obj [])) "item" it)
          "index" (J.num (Int.ofNat 0))) none =
        (Sum.inl (foreachTimeoutObj t), [(⟨"t", "a", J.obj [], t⟩ : ToolCall)]) := by
      rw [runSubSteps_plain, hto]
    have hit : runItems inv [] t [plainSubStep]
        (oset [("items", J.arr (it :: rest))] "prev" (J.obj [])) (it :: rest) 0 none
        = (Sum.inl (foreachTimeoutObj t), [(⟨"t", "a", J.obj [], t⟩ : ToolCall)]) := by
      simp only [runItems, hsub]
    have hstep : runStep inv [] 0 t [("items", J.arr (it :: rest))] (J.obj []) itemsForeachStep
        = ((Sum.inl (foreachTimeoutObj t) : J ⊕ J),
           [(⟨"t", "a", J.obj [], t⟩ : ToolCall)]) := by
      rw [runStep_items, hit]
    show (match runStep inv [] 0 t [("items", J.arr (it :: rest))] (J.obj []) itemsForeachStep with
      | (Sum.inl term, tr) => (term, tr)
      | (Sum.inr p, tr) => (p, tr ++ [])) = _
    rw [hstep]

/-- C6 witness: the amended theorem at a two-item array — a completed-status
invoker processes both items, and an always-timing-out invoker stops after
one invocation with the foreach timeout object. -/
theorem c6_foreach_behavior_witness :
    run_workflow_steps (fun _ => InvokeResult.output (some (J.obj [("status", J.str "completed")])) "")
        [] [itemsForeachStep] [("items", J.arr [J.num 1, J.num 2])] 30
      = (J.obj [("results", J.arr [J.obj [("status", J.str "completed")],
            J.obj [("status", J.str "completed")]]),
          ("processed_count", J.num 2)],
         [⟨"t", "a", J.obj [], 30⟩, ⟨"t", "a", J.obj [], 30⟩])
    ∧ run_workflow_steps (fun _ => InvokeResult.timeout)
        [] [itemsForeachStep] [("items", J.arr [J.num 1, J.num 2])] 30
      = (foreachTimeoutObj 30, [⟨"t", "a", J.obj [], 30⟩]) :=
  ⟨c6_foreach_behavior.2.1
      (fun _ => InvokeResult.output (some (J.obj [("status", J.str "completed")])) "")
      30 [J.num 1, J.num 2] (some (J.obj [("status", J.str "completed")])) "" rfl,
   c6_foreach_behavior.2.2 (fun _ => InvokeResult.timeout) 30 (J.num 1) [J.num 2] rfl⟩


/-! ### C7: supervisor lockfile staleness -/

/-- C7 (counterexample): a 45-minute-old lock (created at 0, observed at
2700 s) whose three pids are all alive is stale by the claim's age rule —
`lockCheck` itself would remove it — yet `execute_queue` never reaches the
lockfile examination: the prison guard runs first, counts 3 live agents from
the same lock, and returns `"blocked"` (not `"already_running"`), leaving
the stale lock in place. -/
theorem c7_counterexample :
    execute_queue false (some ⟨some 0, none, [11, 12, 13], 6, 3, []⟩) 2700
        (fun _ => true) [("t1", ⟨"queued", none, none, none, none, "d"⟩)] 3 none [501]
      = ⟨"blocked", some ⟨some 0, none, [11, 12, 13], 6, 3, []⟩, []⟩
    ∧ lockCheck 2700 (fun _ => true) ⟨some 0, none, [11, 12, 13], 6, 3, []⟩
      = LockCheck.removed :=
  ⟨rfl, rfl⟩

/-- C7: amended lockfile semantics. The staleness dichotomy (over-30-minutes
OR no live pid ⇒ removed, else `already_running`) holds for the lockfile
examination itself, and a reclaimed lock leads into the spawn tail, which on
a non-empty queue writes the new lock (`created_at = now`, the spawned pids,
task count, parallelism, agent ids); but the examination is only reached
when the prison guard passes — with `MAX_PARALLEL_AGENTS` live pids listed
in the lock, `execute_queue` returns `"blocked"` no matter how stale the
lock is. -/
theorem c7_lockfile_behavior :
    (∀ (now : Int) (alive : Int → Bool) (l : LockInfo),
        lockCheck now alive l = LockCheck.removed ↔
          ((∃ t, l.created_at = some t ∧ (1800 : Int) < now - t)
            ∨ (allPids l).any alive = false))
    ∧ (∀ (now : Int) (alive : Int → Bool) (l : LockInfo)
        (q : List (String × Task)) (p : Int) (aid : Option String) (sp : List Int),
        MAX_PARALLEL_AGENTS ≤ count_running_agents (some l) alive →
        execute_queue false (some l) now alive q p aid sp = ⟨"blocked", some l, []⟩)
    ∧ (∀ (now : Int) (alive : Int → Bool) (l : LockInfo)
        (q : List (String × Task)) (p : Int) (aid : Option String) (sp : List Int),
        count_running_agents (some l) alive < MAX_PARALLEL_AGENTS →
        lockCheck now alive l = LockCheck.alreadyRunning →
        execute_queue false (some l) now alive q p aid sp = ⟨"already_running", some l, []⟩)
    ∧ (∀ (now : Int) (alive : Int → Bool) (l : LockInfo)
        (q : List (String × Task)) (p : Int) (aid : Option String) (sp : List Int),
        count_running_agents (some l) alive < MAX_PARALLEL_AGENTS →
        lockCheck now alive l = LockCheck.removed →
        execute_queue false (some l) now alive q p aid sp =
          executeSpawn now q (min (max p 1) (Int.ofNat MAX_PARALLEL_AGENTS)) aid sp)
    ∧ (∀ (now : Int) (q : List (String × Task)) (parallel : Int) (a : String)
        (p : Int) (rest : List Int),
        (queuedTasks q).length ≠ 0 → parallel ≤ 1 → a ≠ "" →
        executeSpawn now q parallel (some a) (p :: rest) =
          ⟨"task_started",
           some ⟨some now, some p, [p], Int.ofNat (queuedTasks q).length, parallel, [a]⟩,
           [⟨some a, p, (queuedTasks q).length⟩]⟩) := by
  refine ⟨?_, ?_, ?_, ?_, ?_⟩
  · intro now alive l
    unfold lockCheck
    cases hca : l.created_at with
    | none =>
      cases hany : (allPids l).any alive <;> simp [hca, hany]
    | some t =>
      by_cases h18 : (1800 : Int) < now - t
      · simp [h18]
      · cases hany : (allPids l).any alive <;> simp [hca, hany, h18]
  · intro now alive l q p aid sp hcnt
    have hnot : ¬ (count_running_agents (some l) alive < MAX_PARALLEL_AGENTS) :=
      Nat.not_lt.mpr hcnt
    simp [execute_queue, enforce_agent_limit, hnot]
  · intro now alive l q p aid sp hcnt hlc
    simp [execute_queue, enforce_agent_limit, hcnt, hlc]
  · intro now alive l q p aid sp hcnt hlc
    simp [execute_queue, enforce_agent_limit, hcnt, hlc]
  · intro now q parallel a p rest hne hp1 ha
    have hnlt : ¬ ((1 : Int) < parallel) := Int.not_lt.mpr hp1
    simp [executeSpawn, hne, hnlt, ha]

/-- C7 witness: the amended theorem instantiated — a full prison (3 live
pids) blocks a 45-minute-old lock; a fresh lock with a live pid refuses as
`already_running`; a dead-pid lock is reclaimed and the spawn tail runs,
writing the new lock for the one queued task. -/
theorem c7_lockfile_behavior_witness :
    execute_queue false (some ⟨some 0, none, [11, 12, 13], 6, 3, []⟩) 2700
        (fun _ => true) [("t1", ⟨"queued", none, none, none, none, "d"⟩)] 1 none [501]
      = ⟨"blocked", some ⟨some 0, none, [11, 12, 13], 6, 3, []⟩, []⟩
    ∧ execute_queue false (some ⟨some 0, some 11, [], 1, 1, []⟩) 60
        (fun _ => true) [("t1", ⟨"queued", none, none, none, none, "d"⟩)] 1 none [501]
      = ⟨"already_running", some ⟨some 0, some 11, [], 1, 1, []⟩, []⟩
    ∧ execute_queue false (some ⟨some 0, some 11, [], 1, 1, []⟩) 60
        (fun _ => false) [("t1", ⟨"queued", none, none, none, none, "d"⟩)] 1
        (some "agent_1") [501]
      = executeSpawn 60 [("t1", ⟨"queued", none, none, none, none, "d"⟩)] 1
          (some "agent_1") [501]
    ∧ executeSpawn 60 [("t1", ⟨"queued", none, none, none, none, "d"⟩)] 1
        (some "agent_1") [501]
      = ⟨"task_started", some ⟨some 60, some 501, [501], 1, 1, ["agent_1"]⟩,
         [⟨some "agent_1", 501, 1⟩]⟩ :=
  ⟨c7_lockfile_behavior.2.1 2700 (fun _ => true) ⟨some 0, none, [11, 12, 13], 6, 3, []⟩
      [("t1", ⟨"queued", none, none, none, none, "d"⟩)] 1 none [501] (by decide),
   c7_lockfile_behavior.2.2.1 60 (fun _ => true) ⟨some 0, some 11, [], 1, 1, []⟩
      [("t1", ⟨"queued", none, none, none, none, "d"⟩)] 1 none [501] (by decide) rfl,
   c7_lockfile_behavior.2.2.2.1 60 (fun _ => false) ⟨some 0, some 11, [], 1, 1, []⟩
      [("t1", ⟨"queued", none, none, none, none, "d"⟩)] 1 (some "agent_1") [501]
      (by decide) rfl,
   c7_lockfile_behavior.2.2.2.2 60 [("t1", ⟨"queued", none, none, none, none, "d"⟩)]
      1 "agent_1" 501 [] (by decide) (by decide) (by decide)⟩

theorem pq_ids (aid : Option String) (now : Int) : ∀ q : List (String × Task),
    (process_queue aid now q).2 =
      (q.filter (fun kv => kv.2.status = "queued" && agentFilterPass aid kv.2)).map Prod.fst := by
  intro q
  induction q with
  | nil => rfl
  | cons kv rest ih =>
    cases h : (decide (kv.2.status = "queued") && agentFilterPass aid kv.2) with
    | false =>
      simp only [process_queue, List.filter_cons, List.map_cons]
      rw [h]
      simp [ih]
    | true =>
      simp only [process_queue, List.filter_cons, List.map_cons]
      rw [h]
      simp [ih]

theorem pq_queue (aid : Option String) (now : Int) : ∀ q : List (String × Task),
    (process_queue aid now q).1 =
      q.map (fun kv =>
        if kv.2.status = "queued" && agentFilterPass aid kv.2 then
          (kv.1, { kv.2 with status := "in_progress", started_at := some now })
        else kv) := by
  intro q
  induction q with
  | nil => rfl
  | cons kv rest ih =>
    cases h : (decide (kv.2.status = "queued") && agentFilterPass aid kv.2) with
    | false =>
      simp only [process_queue, List.map_cons]
      rw [h]
      simp [ih]
    | true =>
      simp only [process_queue, List.map_cons]
      rw [h]
      simp [ih]

/-! ### C8: claiming queued tasks -/

/-- C8: `process_queue` claims exactly the queued tasks passing the agent
filter (returned in queue order), rewrites the queue pointwise — each
claimed task becomes `in_progress` with `started_at` stamped to the single
shared timestamp, all others are untouched — and claims are disjoint: two
calls with distinct non-empty agent ids return disjoint id sets, and a
second claim over the rewritten queue never returns an id claimed by the
first. -/
theorem c8_claim_semantics :
    (∀ (aid : Option String) (now : Int) (q : List (String × Task)),
        (process_queue aid now q).2 =
          (q.filter (fun kv => kv.2.status = "queued" && agentFilterPass aid kv.2)).map
            Prod.fst)
    ∧ (∀ (aid : Option String) (now : Int) (q : List (String × Task)),
        (process_queue aid now q).1 =
          q.map (fun kv =>
            if kv.2.status = "queued" && agentFilterPass aid kv.2 then
              (kv.1, { kv.2 with status := "in_progress", started_at := some now })
            else kv))
    ∧ (∀ (a1 a2 : String) (now1 now2 : Int) (q : List (String × Task)) (tid : String),
        a1 ≠ "" → a2 ≠ "" → a1 ≠ a2 → (q.map Prod.fst).Nodup →
        tid ∈ (process_queue (some a1) now1 q).2 →
        tid ∉ (process_queue (some a2) now2 q).2)
    ∧ (∀ (aid1 aid2 : Option String) (now1 now2 : Int) (q : List (String × Task))
        (tid : String),
        (q.map Prod.fst).Nodup →
        tid ∈ (process_queue aid1 now1 q).2 →
        tid ∉ (process_queue aid2 now2 ((process_queue aid1 now1 q).1)).2) := by
  refine ⟨pq_ids, pq_queue, ?_, ?_⟩
  · intro a1 a2 now1 now2 q tid ha1 ha2 hne hnd h1 h2
    rw [pq_ids] at h1 h2
    obtain ⟨kv1, hkv1, hf1⟩ := List.mem_map.mp h1
    obtain ⟨kv2, hkv2, hf2⟩ := List.mem_map.mp h2
    have hq1 := List.mem_of_mem_filter hkv1
    have hq2 := List.mem_of_mem_filter hkv2
    have hp1 := List.of_mem_filter hkv1
    have hp2 := List.of_mem_filter hkv2
    have heq : kv1 = kv2 :=
      List.inj_on_of_nodup_map hnd hq1 hq2 (hf1.trans hf2.symm)
    have ha1m : kv1.2.agent_id = some a1 := by
      have := (Bool.and_eq_true _ _).mp hp1
      simpa [agentFilterPass, ha1] using this.2
    have ha2m : kv2.2.agent_id = some a2 := by
      have := (Bool.and_eq_true _ _).mp hp2
      simpa [agentFilterPass, ha2] using this.2
    rw [heq, ha2m] at ha1m
    exact hne (Option.some.inj ha1m).symm
  · intro aid1 aid2 now1 now2 q tid hnd h1 h2
    rw [pq_ids] at h1
    rw [pq_ids, pq_queue] at h2
    obtain ⟨kv1, hkv1, hf1⟩ := List.mem_map.mp h1
    obtain ⟨kv2, hkv2, hf2⟩ := List.mem_map.mp h2
    have hq1 := List.mem_of_mem_filter hkv1
    have hp1 := List.of_mem_filter hkv1
    have hq2 := List.mem_of_mem_filter hkv2
    have hp2 := List.of_mem_filter hkv2
    obtain ⟨kv0, hkv0, hmapped⟩ := List.mem_map.mp hq2
    have hfst0 : kv0.1 = kv2.1 := by
      rw [← hmapped]
      by_cases hc : (kv0.2.status = "queued" && agentFilterPass aid1 kv0.2) = true
      · simp [hc]
      · simp [hc]
    have heq0 : kv0 = kv1 :=
      List.inj_on_of_nodup_map hnd hkv0 hq1 (hfst0.trans (hf2.trans hf1.symm))
    have hst1 : kv1.2.status = "queued" :=
      of_decide_eq_true ((Bool.and_eq_true _ _).mp hp1).1
    have hcond : (kv0.2.status = "queued" && agentFilterPass aid1 kv0.2) = true := by
      rw [heq0]
      exact hp1
    have hkv2eq : kv2 = (kv0.1, { kv0.2 with status := "in_progress", started_at := some now1 }) := by
      rw [← hmapped, if_pos hcond]
    have hst2 : kv2.2.status = "queued" :=
      of_decide_eq_true ((Bool.and_eq_true _ _).mp hp2).1
    rw [hkv2eq] at hst2
    simp at hst2

/-- C8 witness: two queued tasks for agents `"a"` and `"b"` — agent `"a"`'s
claim returns `t1` and agent `"b"`'s claim cannot return it; likewise an
unfiltered second claim over the rewritten queue cannot claim `t1` again. -/
theorem c8_claim_semantics_witness :
    ("t1" ∉ (process_queue (some "b") 7
        [("t1", ⟨"queued", some "a", none, none, none, "d1"⟩),
         ("t2", ⟨"queued", some "b", none, none, none, "d2"⟩)]).2)
    ∧ ("t1" ∉ (process_queue none 7
        ((process_queue none 5
          [("t1", ⟨"queued", some "a", none, none, none, "d1"⟩),
           ("t2", ⟨"queued", some "b", none, none, none, "d2"⟩)]).1)).2) :=
  ⟨c8_claim_semantics.2.2.1 "a" "b" 5 7
      [("t1", ⟨"queued", some "a", none, none, none, "d1"⟩),
       ("t2", ⟨"queued", some "b", none, none, none, "d2"⟩)] "t1"
      (by decide) (by decide) (by decide) (by decide) (by decide),
   c8_claim_semantics.2.2.2 none none 5 7
      [("t1", ⟨"queued", some "a", none, none, none, "d1"⟩),
       ("t2", ⟨"queued", some "b", none, none, none, "d2"⟩)] "t1"
      (by decide) (by decide)⟩

instance : IsTotal (String × Obj) completedLe :=
  ⟨fun a b => le_total (completedAtOf a.2) (completedAtOf b.2)⟩

instance : IsTrans (String × Obj) completedLe :=
  ⟨fun _ _ _ h1 h2 => le_trans h1 h2⟩

theorem aset_length_le {α : Type} (k : String) (v : α) :
    ∀ l : List (String × α), (aset l k v).length ≤ l.length + 1 := by
  intro l
  induction l with
  | nil => simp [aset]
  | cons kv rest ih =>
    obtain ⟨k1, v1⟩ := kv
    by_cases h : k1 = k
    · simp [aset, h]
    · simp only [aset, h, if_false, List.length_cons]
      omega

/-! ### C9: the results cap and archive -/

/-- C9 (counterexample): a results file holding exactly 10 entries receives
an 11th completion.  The archive branch requires strictly more than 10
PRE-existing entries, so nothing is archived, the new result is inserted
afterwards, and the file ends the call with 11 entries — over the claimed
cap. -/
theorem c9_counterexample :
    (log_completion_results
      [("t1", [("completed_at", J.str "01")]), ("t2", [("completed_at", J.str "02")]),
       ("t3", [("completed_at", J.str "03")]), ("t4", [("completed_at", J.str "04")]),
       ("t5", [("completed_at", J.str "05")]), ("t6", [("completed_at", J.str "06")]),
       ("t7", [("completed_at", J.str "07")]), ("t8", [("completed_at", J.str "08")]),
       ("t9", [("completed_at", J.str "09")]), ("t10", [("completed_at", J.str "10")])]
      "t11" [("completed_at", J.str "11")]).1.length = 11
    ∧ (log_completion_results
      [("t1", [("completed_at", J.str "01")]), ("t2", [("completed_at", J.str "02")]),
       ("t3", [("completed_at", J.str "03")]), ("t4", [("completed_at", J.str "04")]),
       ("t5", [("completed_at", J.str "05")]), ("t6", [("completed_at", J.str "06")]),
       ("t7", [("completed_at", J.str "07")]), ("t8", [("completed_at", J.str "08")]),
       ("t9", [("completed_at", J.str "09")]), ("t10", [("completed_at", J.str "10")])]
      "t11" [("completed_at", J.str "11")]).2 = [] :=
  ⟨rfl, rfl⟩

/-- C9: amended cap semantics. When MORE than 10 results pre-exist, the
archive step keeps exactly the 10 most recent by `completed_at` (ascending
sort: flushed ++ kept is the stable sort of the input, a permutation of it,
and every flushed entry's `completed_at` is at most every kept one's); at
most 10 pre-existing results archive nothing.  The new result is inserted
only after archiving, so a call leaves at most ELEVEN entries — the claimed
post-call cap of 10 does not hold. -/
theorem c9_results_cap :
    (∀ results : List (String × Obj), 10 < results.length →
      (archiveResults results).1.length = 10
      ∧ (archiveResults results).2 ++ (archiveResults results).1 = sortByCompleted results
      ∧ (sortByCompleted results).Perm results
      ∧ List.Sorted completedLe (sortByCompleted results)
      ∧ ∀ x ∈ (archiveResults results).2, ∀ y ∈ (archiveResults results).1,
          completedLe x y)
    ∧ (∀ results : List (String × Obj), results.length ≤ 10 →
      archiveResults results = (results, []))
    ∧ (∀ (results : List (String × Obj)) (tid : String) (res : Obj),
      (log_completion_results results tid res).1.length ≤ 11) := by
  have hlen : ∀ results : List (String × Obj),
      (sortByCompleted results).length = results.length := fun results =>
    (List.perm_insertionSort completedLe results).length_eq
  refine ⟨?_, ?_, ?_⟩
  · intro results h
    have h10 : 10 ≤ (sortByCompleted results).length := by
      rw [hlen]; omega
    have hsorted : List.Sorted completedLe (sortByCompleted results) :=
      List.sorted_insertionSort completedLe results
    have harch : archiveResults results =
        ((sortByCompleted results).drop ((sortByCompleted results).length - 10),
         (sortByCompleted results).take ((sortByCompleted results).length - 10)) := by
      simp [archiveResults, h, sortByCompleted]
    refine ⟨?_, ?_, List.perm_insertionSort completedLe results, hsorted, ?_⟩
    · rw [harch]
      simp only [List.length_drop]
      omega
    · rw [harch]
      exact List.take_append_drop _ _
    · intro x hx y hy
      rw [harch] at hx hy
      have hsplit := List.pairwise_append.mp
        (by rw [List.take_append_drop
          ((sortByCompleted results).length - 10) (sortByCompleted results)]; exact hsorted)
      exact hsplit.2.2 x hx y hy
  · intro results h
    simp [archiveResults, Nat.not_lt.mpr h]
  · intro results tid res
    by_cases h : 10 < results.length
    · have hk : (archiveResults results).1.length = 10 := by
        simp only [archiveResults, if_pos h, List.length_drop]
        rw [hlen]
        omega
      have := aset_length_le tid res (archiveResults results).1
      simp only [log_completion_results]
      omega
    · have hk : (archiveResults results).1 = results := by
        simp [archiveResults, h]
      simp only [log_completion_results]
      rw [hk]
      have := aset_length_le tid res results
      omega

/-- C9 witness: the amended theorem at concrete inputs — an 11-entry file
keeps exactly 10 after archiving, a 1-entry file archives nothing, and the
10-entry insertion ends at 11 ≤ 11. -/
theorem c9_results_cap_witness :
    (archiveResults
      [("t1", [("completed_at", J.str "01")]), ("t2", [("completed_at", J.str "02")]),
       ("t3", [("completed_at", J.str "03")]), ("t4", [("completed_at", J.str "04")]),
       ("t5", [("completed_at", J.str "05")]), ("t6", [("completed_at", J.str "06")]),
       ("t7", [("completed_at", J.str "07")]), ("t8", [("completed_at", J.str "08")]),
       ("t9", [("completed_at", J.str "09")]), ("t10", [("completed_at", J.str "10")]),
       ("t11", [("completed_at", J.str "11")])]).1.length = 10
    ∧ archiveResults [("t1", [("completed_at", J.str "01")])]
      = ([("t1", [("completed_at", J.str "01")])], [])
    ∧ (log_completion_results
      [("t1", [("completed_at", J.str "01")]), ("t2", [("completed_at", J.str "02")]),
       ("t3", [("completed_at", J.str "03")]), ("t4", [("completed_at", J.str "04")]),
       ("t5", [("completed_at", J.str "05")]), ("t6", [("completed_at", J.str "06")]),
       ("t7", [("completed_at", J.str "07")]), ("t8", [("completed_at", J.str "08")]),
       ("t9", [("completed_at", J.str "09")]), ("t10", [("completed_at", J.str "10")])]
      "t11" [("completed_at", J.str "11")]).1.length ≤ 11 :=
  ⟨(c9_results_cap.1
      [("t1", [("completed_at", J.str "01")]), ("t2", [("completed_at", J.str "02")]),
       ("t3", [("completed_at", J.str "03")]), ("t4", [("completed_at", J.str "04")]),
       ("t5", [("completed_at", J.str "05")]), ("t6", [("completed_at", J.str "06")]),
       ("t7", [("completed_at", J.str "07")]), ("t8", [("completed_at", J.str "08")]),
       ("t9", [("completed_at", J.str "09")]), ("t10", [("completed_at", J.str "10")]),
       ("t11", [("completed_at", J.str "11")])] (by decide)).1,
   c9_results_cap.2.1 [("t1", [("completed_at", J.str "01")])] (by decide),
   c9_results_cap.2.2
      [("t1", [("completed_at", J.str "01")]), ("t2", [("completed_at", J.str "02")]),
       ("t3", [("completed_at", J.str "03")]), ("t4", [("completed_at", J.str "04")]),
       ("t5", [("completed_at", J.str "05")]), ("t6", [("completed_at", J.str "06")]),
       ("t7", [("completed_at", J.str "07")]), ("t8", [("completed_at", J.str "08")]),
       ("t9", [("completed_at", J.str "09")]), ("t10", [("completed_at", J.str "10")])]
      "t11" [("completed_at", J.str "11")]⟩

end OrchSpec
